import Mathlib

/-!
Verification of the changesets core: the version-range rewriter
(`apply-release-plan/src/version-package.ts`) and the config
validator/normalizer (`config` package, `parse`).

JavaScript strings are modelled as Lean `String` (a list of characters);
`startsWith`/`substr` are modelled by list operations on `String.data`.
External collaborators that are not part of the translated source
(the semver range parser, the range classifier from
`@changesets/get-version-range-type`, the `micromatch` name matcher and
the dependents graph from `@changesets/get-dependents-graph`) are
modelled from the specification of their interfaces; each such
definition carries a doc comment saying so.
-/

/-- Characters of the `workspace:` marker (the source strips it with `substr(10)`). -/
def wsMarker : List Char := ['w', 'o', 'r', 'k', 's', 'p', 'a', 'c', 'e', ':']

/-- JS `s.startsWith(p)` on character lists. -/
def jsStartsWith (s p : String) : Bool := p.data.isPrefixOf s.data

/-- JS `s.substr(n)` (drop the first `n` characters). -/
def strDrop (s : String) (n : Nat) : String := ⟨s.data.drop n⟩

/-- Modelled from the spec: a shell character class denotes a set of
single characters and lo-hi ranges; membership test of one character. -/
def classMember (c : Char) : List (Char × Char) → Bool
  | [] => false
  | (lo, hi) :: rest => (decide (lo ≤ c) && decide (c ≤ hi)) || classMember c rest

/-- Modelled from the spec: read the members of a shell character class up
to the closing bracket.  A member is a single character or a lo-hi range;
a dash standing directly before the closing bracket is a literal member.
Returns the members and the pattern after the class, or none when the
class is unterminated. -/
def classItems : List Char → List (Char × Char) → Option (List (Char × Char) × List Char)
  | [], _ => none
  | ']' :: rest, acc => some (acc.reverse, rest)
  | a :: '-' :: b :: rest, acc =>
      if b = ']' then some ((('-', '-') :: (a, a) :: acc).reverse, rest)
      else classItems rest ((a, b) :: acc)
  | a :: rest, acc => classItems rest ((a, a) :: acc)

/-- Modelled from the spec: parse a shell character class after its opening
bracket: an optional leading negation mark (exclamation or caret), then
the members; a closing bracket standing first is a literal member. -/
def parseClass (body : List Char) : Option (Bool × List (Char × Char) × List Char) :=
  match body with
  | '!' :: ']' :: rest => (classItems rest [(']', ']')]).map (fun r => (true, r.1, r.2))
  | '^' :: ']' :: rest => (classItems rest [(']', ']')]).map (fun r => (true, r.1, r.2))
  | '!' :: rest => (classItems rest []).map (fun r => (true, r.1, r.2))
  | '^' :: rest => (classItems rest []).map (fun r => (true, r.1, r.2))
  | ']' :: rest => (classItems rest [(']', ']')]).map (fun r => (false, r.1, r.2))
  | _ => (classItems body []).map (fun r => (false, r.1, r.2))

/-- Modelled from the spec: split a brace-alternation body at its top-level
commas up to the matching closing brace (inner brace pairs stay inside
their alternative untouched); returns the alternatives in order and the
pattern after the closing brace, or none when the brace is unmatched. -/
def braceAlts : List Char → Nat → List Char → List (List Char) →
    Option (List (List Char) × List Char)
  | [], _, _, _ => none
  | '}' :: rest, 0, cur, alts => some ((cur.reverse :: alts).reverse, rest)
  | '}' :: rest, d + 1, cur, alts => braceAlts rest d ('}' :: cur) alts
  | '{' :: rest, d, cur, alts => braceAlts rest (d + 1) ('{' :: cur) alts
  | ',' :: rest, 0, cur, alts => braceAlts rest 0 [] (cur.reverse :: alts)
  | c :: rest, d, cur, alts => braceAlts rest d (c :: cur) alts

/-- Modelled from the spec: glob matching of the Name Matcher (§4.1).  A
single `*` matches any run of non-separator characters, `**` any run
including separators, and — as in standard shell globbing — a question
mark matches one non-separator character, a bracketed character class
(with optional leading negation and lo-hi ranges) matches one character
of the class, and a brace group matches any of its comma-separated
alternatives; an unterminated class or brace falls back to a literal
bracket or brace, and every other character matches itself.  Fuel-indexed
so that the definition is structural and computes by kernel reduction;
the fuel `|pattern| + |name| + 1` is always sufficient because every
recursive call decreases `|pattern| + |name|` (a parsed class or brace
group drops at least its two delimiters from the pattern). -/
def globAux : Nat → List Char → List Char → Bool
  | 0, _, _ => false
  | _ + 1, [], ns => ns.isEmpty
  | f + 1, p :: ps, ns =>
      if p = '*' then
        match ps, ns with
        | '*' :: ps', [] => globAux f ps' []
        | '*' :: ps', c :: nt =>
            globAux f ps' (c :: nt) || globAux f ('*' :: '*' :: ps') nt
        | _, [] => globAux f ps []
        | _, c :: nt =>
            globAux f ps (c :: nt) || (decide (c ≠ '/') && globAux f ('*' :: ps) nt)
      else if p = '?' then
        match ns with
        | [] => false
        | c :: nt => decide (c ≠ '/') && globAux f ps nt
      else if p = '[' then
        match parseClass ps, ns with
        | some (neg, items, rest), c :: nt =>
            (classMember c items != neg) && globAux f rest nt
        | some _, [] => false
        | none, c :: nt => decide (c = '[') && globAux f ps nt
        | none, [] => false
      else if p = '{' then
        match braceAlts ps 0 [] [] with
        | some (alts, rest) => alts.any (fun alt => globAux f (alt ++ rest) ns)
        | none =>
            match ns with
            | [] => false
            | c :: nt => decide (c = '{') && globAux f ps nt
      else
        match ns with
        | [] => false
        | c :: nt => decide (p = c) && globAux f ps nt

/-- Modelled from the spec: `micromatch.isMatch(name, pattern)` (§4.1). -/
def globMatch (pattern name : String) : Bool :=
  globAux (pattern.data.length + name.data.length + 1) pattern.data name.data

/-- Characters allowed in the version part of a range by the modelled semver parser. -/
def versionCharOk (c : Char) : Bool :=
  c.isAlphanum || c = '.' || c = '-' || c = '+' || c = '*' || c = ' '

/-- Strip one leading comparator operator from a range, for the modelled parser. -/
def stripRangeOp : List Char → List Char
  | '>' :: '=' :: t => t
  | '<' :: '=' :: t => t
  | '^' :: t => t
  | '~' :: t => t
  | '>' :: t => t
  | '<' :: t => t
  | '=' :: t => t
  | t => t

/-- Modelled from the spec: the Semver Range Parser (§6), `new Range(text)`.
Returns `true` exactly when the normalized range is the universal
"any version" range (originally `*`, `x`, `X` or the empty string, which
is what the source's comment and the spec describe); returns `false` for
other well-formed ranges (an optional comparator operator followed by
version characters); fails with `InvalidRangeError` otherwise — in
particular on protocol ranges such as `file:../pkg-b`, whose `:` and `/`
are not range syntax. -/
def parseRange (text : String) : Except String Bool :=
  if text = "" ∨ text = "*" ∨ text = "x" ∨ text = "X" then .ok true
  else
    let core := stripRangeOp text.data
    if core ≠ [] ∧ core.all versionCharOk then .ok false
    else .error ("Invalid range: " ++ text)

/-- Range-type classifier on character lists: the minimal operator
prefix such that `prefix ++ version` reproduces the range shape. -/
def rangeTypeOfChars (l : List Char) : String :=
  if l.take 2 = ['>', '='] then ">="
  else if l.take 2 = ['<', '='] then "<="
  else if l.take 1 = ['^'] then "^"
  else if l.take 1 = ['~'] then "~"
  else if l.take 1 = ['>'] then ">"
  else if l.take 1 = ['<'] then "<"
  else ""

/-- Modelled from the spec: the Range Classifier of
`@changesets/get-version-range-type` (§6): empty for exact, `^` for
caret, `~` for tilde, the literal operator characters otherwise. -/
def getVersionRangeType (versionRange : String) : String :=
  rangeTypeOfChars versionRange.data

/-- A new version handed to the rewriter is a bare semver version; every
such version starts with a digit, which is all the shape-preservation
law needs of it. -/
def startsWithDigit (v : String) : Bool :=
  match v.data with
  | [] => false
  | c :: _ => c.isDigit

/-- The exact strings the source skips:
`['link:', 'link:.', 'file:', 'file:.'].includes(depCurrentVersion)`. -/
def pinnedProtocols : List String := ["link:", "link:.", "file:", "file:."]

/-- The body of the per-dependency loop of `versionPackage`
(version-package.ts lines 28–45), as the value transformation of one
declared range: returns the resulting manifest entry (the declared range
itself when the entry is skipped), or the parser's error.  The `""` case
belongs to the source's falsy test `!depCurrentVersion`. -/
def rewriteDep (depCurrentVersion : String) (version : String) : Except String String :=
  if depCurrentVersion = "" ∨ depCurrentVersion ∈ pinnedProtocols then .ok depCurrentVersion
  else
    let usesWorkspaceRange := jsStartsWith depCurrentVersion "workspace:"
    let inner := if usesWorkspaceRange then strDrop depCurrentVersion 10 else depCurrentVersion
    match parseRange inner with
    | .error e => .error e
    | .ok isAnyRange =>
      if isAnyRange then .ok depCurrentVersion
      else
        let newNewRange := getVersionRangeType inner ++ version
        .ok (if usesWorkspaceRange then "workspace:" ++ newNewRange else newNewRange)

/-- The four dependency-type tags (`DEPENDENCY_TYPES` in version-package.ts). -/
inductive DependencyType
  | dependencies
  | devDependencies
  | peerDependencies
  | optionalDependencies
deriving DecidableEq

/-- A manifest (`PackageJSON`): name, version and the four dependency
maps, each an insertion-ordered map from dependency name to declared
range. -/
structure PackageJSON where
  name : String
  version : String
  dependencies : Option (List (String × String)) := none
  devDependencies : Option (List (String × String)) := none
  peerDependencies : Option (List (String × String)) := none
  optionalDependencies : Option (List (String × String)) := none

/-- Dependency map of a manifest under one tag. -/
def PackageJSON.depsOf (pj : PackageJSON) : DependencyType → Option (List (String × String))
  | .dependencies => pj.dependencies
  | .devDependencies => pj.devDependencies
  | .peerDependencies => pj.peerDependencies
  | .optionalDependencies => pj.optionalDependencies

/-- JS object property read `deps[name]` (first matching key). -/
def lookupDep : List (String × String) → String → Option String
  | [], _ => none
  | (k, v) :: rest, name => if k = name then some v else lookupDep rest name

/-- JS object property write `deps[name] = nv` for an existing key
(updates the first matching key in place, keeping its position). -/
def setDep : List (String × String) → String → String → List (String × String)
  | [], _, _ => []
  | (k, v) :: rest, name, nv =>
    if k = name then (k, nv) :: rest else (k, v) :: setDep rest name nv

/-- One element of `versionsToUpdate`. -/
structure VersionUpdate where
  name : String
  version : String

/-- The inner `for (let { name, version } of versionsToUpdate)` loop of
`versionPackage` over one dependency map. -/
def applyUpdatesToDeps (deps : List (String × String)) :
    List VersionUpdate → Except String (List (String × String))
  | [] => .ok deps
  | u :: rest =>
    match lookupDep deps u.name with
    | none => applyUpdatesToDeps deps rest
    | some depCurrentVersion =>
      match rewriteDep depCurrentVersion u.version with
      | .error e => .error e
      | .ok newRange => applyUpdatesToDeps (setDep deps u.name newRange) rest

/-- `versionPackage`'s treatment of one dependency-type block
(`let deps = packageJson[type]; if (deps) { ... }`). -/
def applyUpdatesToBlock (o : Option (List (String × String)))
    (updates : List VersionUpdate) : Except String (Option (List (String × String))) :=
  match o with
  | none => .ok none
  | some deps => (applyUpdatesToDeps deps updates).map some

/-- The `release` argument of `versionPackage`: a `ComprehensiveRelease`
together with `changelog`, `packageJson` and `dir`. -/
structure Release where
  name : String
  type : String
  oldVersion : String
  newVersion : String
  changesets : List String
  changelog : Option String
  packageJson : PackageJSON
  dir : String

/-- `versionPackage` (version-package.ts lines 12–51): assigns
`packageJson.version = newVersion`, rewrites each dependency-type
block's matching entries, and returns `{ ...release, packageJson }`.
The semver parser's `InvalidRangeError` propagates as the error case. -/
def versionPackage (release : Release) (versionsToUpdate : List VersionUpdate) :
    Except String Release := do
  let pj0 := { release.packageJson with version := release.newVersion }
  let d1 ← applyUpdatesToBlock pj0.dependencies versionsToUpdate
  let d2 ← applyUpdatesToBlock pj0.devDependencies versionsToUpdate
  let d3 ← applyUpdatesToBlock pj0.peerDependencies versionsToUpdate
  let d4 ← applyUpdatesToBlock pj0.optionalDependencies versionsToUpdate
  .ok { release with
        packageJson :=
          { pj0 with
            dependencies := d1
            devDependencies := d2
            peerDependencies := d3
            optionalDependencies := d4 } }

/-- A JSON-shaped untrusted JavaScript value, as found in the raw
written config. -/
inductive JSValue where
  | undef
  | null
  | bool (b : Bool)
  | num (n : Int)
  | str (s : String)
  | arr (elems : List JSValue)
  | obj (fields : List (String × JSValue))

/-- JS truthiness: `undefined`, `null`, `false`, `0` and `""` are falsy. -/
def JSValue.truthy : JSValue → Bool
  | .undef => false
  | .null => false
  | .bool b => b
  | .num n => decide (n ≠ 0)
  | .str s => decide (s ≠ "")
  | .arr _ => true
  | .obj _ => true

/-- `v === undefined`. -/
def JSValue.isUndef : JSValue → Bool
  | .undef => true
  | _ => false

/-- `typeof v === "string"` extraction. -/
def asStr : JSValue → Option String
  | .str s => some s
  | _ => none

/-- `Array.isArray(v) && v.every(x => typeof x === "string")` extraction. -/
def asStringList : JSValue → Option (List String)
  | .arr xs => xs.mapM asStr
  | _ => none

/-- `Array.isArray(v) && v.every(a => Array.isArray(a) && a.every(string))`
extraction (the shape of the `linked` option). -/
def asLinkedShape : JSValue → Option (List (List String))
  | .arr xs => xs.mapM asStringList
  | _ => none

/-- JS property read `v[key]` (objects only; primitives yield
`undefined`; `null`/`undefined` receivers are guarded before use). -/
def JSValue.getField : JSValue → String → JSValue
  | .obj fs, key =>
    match fs.find? (fun kv => kv.1 == key) with
    | some kv => kv.2
    | none => JSValue.undef
  | _, _ => JSValue.undef

/-- `JSON.stringify(v, null, 2)` as interpolated into a template string
(so `undefined` renders as the text `undefined`).  Fuel-indexed on
`sizeOf` so the definition is structural; the fuel always suffices. -/
def jsonStringifyAux : Nat → String → JSValue → String
  | _, _, .undef => "undefined"
  | _, _, .null => "null"
  | _, _, .bool true => "true"
  | _, _, .bool false => "false"
  | _, _, .num n => toString n
  | _, _, .str s => "\"" ++ s ++ "\""
  | 0, _, .arr _ => ""
  | 0, _, .obj _ => ""
  | _ + 1, _, .arr [] => "[]"
  | f + 1, ind, .arr (x :: xs) =>
    "[\n" ++
      String.intercalate ",\n"
        ((x :: xs).map (fun e => ind ++ "  " ++ jsonStringifyAux f (ind ++ "  ") e)) ++
      "\n" ++ ind ++ "]"
  | _ + 1, _, .obj [] => "\x7b\x7d"
  | f + 1, ind, .obj (kv :: kvs) =>
    "\x7b\n" ++
      String.intercalate ",\n"
        ((kv :: kvs).map (fun p =>
          ind ++ "  \"" ++ p.1 ++ "\": " ++ jsonStringifyAux f (ind ++ "  ") p.2)) ++
      "\n" ++ ind ++ "\x7d"

/-- `JSON.stringify(v, null, 2)` at top level.  The fuel bounds the
nesting depth only (one unit per nesting level); 1000 levels are ample
for every value that occurs here, and the rendering of deeper values is
never inspected by any theorem. -/
def jsonStringify (v : JSValue) : String := jsonStringifyAux 1000 "" v

/-- Modelled from the spec: the error message micromatch raises when a
pattern is not a non-empty string (reached for empty-string patterns and
for non-string `ignore` values handed to `normalizePackageNames`). -/
def micromatchErr : String := "Expected pattern to be a non-empty string"

/-- The JS TypeError raised when destructuring the experimental options
object while it is `null`. -/
def destructureErr : String :=
  "Cannot destructure property 'onlyUpdatePeerDependentsWhenOutOfRange' of 'json.___experimentalUnsafeOptions_WILL_CHANGE_IN_PATCH' as it is null."

def changelogShapeMsg (v : JSValue) : String :=
  "The `changelog` option is set as " ++ jsonStringify v ++
    " when the only valid values are undefined, a module path(e.g. \"@changesets/cli/changelog\" or \"./some-module\") or a tuple with a module path and config for the changelog generator(e.g. [\"@changesets/cli/changelog\", \x7b someOption: true \x7d])"

def accessShapeMsg (v : JSValue) : String :=
  "The `access` option is set as " ++ jsonStringify v ++
    " when the only valid values are undefined, \"public\" or \"restricted\""

def commitShapeMsg (v : JSValue) : String :=
  "The `commit` option is set as " ++ jsonStringify v ++
    " when the only valid values are undefined or a boolean"

def baseBranchShapeMsg (v : JSValue) : String :=
  "The `baseBranch` option is set as " ++ jsonStringify v ++
    " but the `baseBranch` option can only be set as a string"

def linkedShapeMsg (v : JSValue) : String :=
  "The `linked` option is set as " ++ jsonStringify v ++
    " when the only valid values are undefined or an array of arrays of package names"

def updateInternalShapeMsg (v : JSValue) : String :=
  "The `updateInternalDependencies` option is set as " ++ jsonStringify v ++
    " but can only be 'patch' or 'minor'"

def ignoreShapeMsg (v : JSValue) : String :=
  "The `ignore` option is set as " ++ jsonStringify v ++
    " when the only valid values are undefined or an array of package names"

def linkedUnmatchedMsg (pat : String) : String :=
  "The package or glob expression \"" ++
    (pat ++
      "\" specified in the `linked` option does not match any package in the project. You may have misspelled the package name or provided an invalid glob expression. Note that glob expressions must be defined according to https://www.npmjs.com/package/micromatch.")

/-- Fixed tail of the duplicated-linked-package message (everything
after the duplicated name). -/
def dupLinkedSuffix : String :=
  "\" is defined in multiple sets of linked packages. Packages can only be defined in a single set of linked packages. If you are using glob expressions, make sure that they are valid according to https://www.npmjs.com/package/micromatch."

def dupLinkedMsg (pkgName : String) : String :=
  "The package \"" ++ (pkgName ++ dupLinkedSuffix)

def ignoreUnmatchedMsg (pat : String) : String :=
  "The package or glob expression \"" ++
    (pat ++
      "\" is specified in the `ignore` option but it is not found in the project. You may have misspelled the package name or provided an invalid glob expression. Note that glob expressions must be defined according to https://www.npmjs.com/package/micromatch.")

/-- Fixed tail of the ignore-closure message (after the last mention of
the dependent). -/
def closureSuffix : String := "\" to the `ignore` option."

def closureMsg (dependent ignoredPackage : String) : String :=
  "The package \"" ++
    (dependent ++
      ("\" depends on the ignored package \"" ++
        (ignoredPackage ++
          ("\", but \"" ++
            (dependent ++
              ("\" is not being ignored. Please add \"" ++
                (dependent ++ closureSuffix)))))))

def expOutOfRangeMsg (v : JSValue) : String :=
  "The `onlyUpdatePeerDependentsWhenOutOfRange` option is set as " ++ jsonStringify v ++
    " when the only valid values are undefined or a boolean"

def expSnapshotsMsg (v : JSValue) : String :=
  "The `useCalculatedVersionForSnapshots` option is set as " ++ jsonStringify v ++
    " when the only valid values are undefined or a boolean"

/-- A package of the graph (`dir` plus manifest). -/
structure Package where
  dir : String
  packageJson : PackageJSON

/-- The package graph handed to `parse` (`@manypkg/get-packages` shape). -/
structure Packages where
  root : Package
  tool : String
  packages : List Package

/-- `packages.packages.map(({ packageJson }) => packageJson.name)`. -/
def pkgNamesOf (packages : Packages) : List String :=
  packages.packages.map (fun p => p.packageJson.name)

/-- Does a dependency map declare `name` as a key. -/
def hasDepKey : Option (List (String × String)) → String → Bool
  | none, _ => false
  | some l, n => l.any (fun kv => kv.1 == n)

/-- Does the manifest declare a dependency on `name` under any of the
four dependency-type tags. -/
def declaresDependencyOn (pj : PackageJSON) (name : String) : Bool :=
  hasDepKey pj.dependencies name || hasDepKey pj.devDependencies name ||
    hasDepKey pj.peerDependencies name || hasDepKey pj.optionalDependencies name

/-- Modelled from the spec: the Dependents Graph of
`@changesets/get-dependents-graph` (§6): `build(packages)` maps each
package name to the set of in-repo packages that declare a direct
dependency on it; `dependentsGraph.get(x) || []` yields `[]` for a key
that is not a package name. -/
def getDependents (packages : Packages) (name : String) : List String :=
  if (pkgNamesOf packages).contains name then
    (packages.packages.filter (fun p => declaresDependencyOn p.packageJson name)).map
      (fun p => p.packageJson.name)
  else []

/-- The matched component of `normalizePackageNames`: the subset of
`pkgNames` matching any pattern. -/
def matchedNames (patterns pkgNames : List String) : List String :=
  pkgNames.filter (fun n => patterns.any (fun pat => globMatch pat n))

/-- The unmatched component of `normalizePackageNames`: the patterns, in
order, matching no known name. -/
def unmatchedPatterns (patterns pkgNames : List String) : List String :=
  patterns.filter (fun pat => !(pkgNames.any (fun n => globMatch pat n)))

/-- `normalizePackageNames` (config source lines 85–102), over the
modelled micromatch: fails as micromatch does when some pattern is the
empty string, otherwise returns the matched names and the unmatched
patterns. -/
def normalizePackageNames (listOfPackageNamesOrGlob pkgNames : List String) :
    Except String (List String × List String) :=
  if listOfPackageNamesOrGlob.any (fun pat => pat == "") then .error micromatchErr
  else
    .ok (matchedNames listOfPackageNamesOrGlob pkgNames,
      unmatchedPatterns listOfPackageNamesOrGlob pkgNames)

/-- The raw, untrusted written config: every field is an arbitrary JS
value (`undef` meaning the field is absent).  `experimentalOptions`
stands for the source's `___experimentalUnsafeOptions_WILL_CHANGE_IN_PATCH`
field (renamed only because of this file's naming constraints). -/
structure WrittenConfig where
  changelog : JSValue := .undef
  access : JSValue := .undef
  commit : JSValue := .undef
  linked : JSValue := .undef
  baseBranch : JSValue := .undef
  updateInternalDependencies : JSValue := .undef
  ignore : JSValue := .undef
  bumpVersionsWithWorkspaceProtocolOnly : JSValue := .undef
  experimentalOptions : JSValue := JSValue.undef

/-- The validated, normalized `Config`.  Fields whose runtime value the
source never converts keep the JS value representation. -/
structure Config where
  changelog : JSValue
  access : JSValue
  commit : JSValue
  linked : List (List String)
  baseBranch : JSValue
  updateInternalDependencies : JSValue
  ignore : List String
  bumpVersionsWithWorkspaceProtocolOnly : Bool
  onlyUpdatePeerDependentsWhenOutOfRange : JSValue
  useCalculatedVersionForSnapshots : JSValue

/-- `getNormalisedChangelogOption` (config source lines 73–83). -/
def getNormalisedChangelogOption : JSValue → JSValue
  | .bool false => .bool false
  | .str s => .arr [.str s, .null]
  | thing => thing

/-- The legacy-value coercion: `"private"` becomes `"restricted"` (with
a side-channel warning the model does not track). -/
def normalizedAccessOf : JSValue → JSValue
  | .str "private" => .str "restricted"
  | v => v

/-- The `changelog` shape check (config source lines 127–144). -/
def changelogCheck : JSValue → List String
  | .undef => []
  | .bool false => []
  | .str _ => []
  | .arr [.str _, _] => []
  | v => [changelogShapeMsg v]

/-- The `access` shape check on the normalized value (lines 153–165). -/
def accessCheck : JSValue → List String
  | .undef => []
  | .str "restricted" => []
  | .str "public" => []
  | v => [accessShapeMsg v]

/-- The `commit` shape check (lines 167–175). -/
def commitCheck : JSValue → List String
  | .undef => []
  | .bool _ => []
  | v => [commitShapeMsg v]

/-- The `baseBranch` shape check (lines 176–184). -/
def baseBranchCheck : JSValue → List String
  | .undef => []
  | .str _ => []
  | v => [baseBranchShapeMsg v]

/-- The `updateInternalDependencies` check (lines 235–246):
`["patch", "minor"].includes(v)` compares with `===`. -/
def updateInternalCheck : JSValue → List String
  | .undef => []
  | .str "patch" => []
  | .str "minor" => []
  | v => [updateInternalShapeMsg v]

/-- The per-group bookkeeping of the linked check (lines 211–216): JS
`Set`s modelled as duplicate-free lists in insertion order; for each
name, the duplicate test runs before the name is added to `found`. -/
def addNamesToSets : List String → List String → List String → List String × List String
  | [], found, dup => (found, dup)
  | n :: ns, found, dup =>
    addNamesToSets ns (if found.contains n then found else found ++ [n])
      (if found.contains n && !(dup.contains n) then dup ++ [n] else dup)

/-- The `for (let linkedGroup of json.linked)` loop (lines 206–225):
resolves each group, accumulates found/duplicated names and the
unmatched-pattern messages. -/
def linkedLoop (pkgNames : List String) :
    List (List String) → List String → List String → List String →
      Except String (List String × List String)
  | [], _, dup, msgs => .ok (msgs, dup)
  | g :: rest, found, dup, msgs =>
    match normalizePackageNames g pkgNames with
    | .error e => .error e
    | .ok r =>
      let fd := addNamesToSets r.1 found dup
      linkedLoop pkgNames rest fd.1 fd.2 (msgs ++ r.2.map linkedUnmatchedMsg)

/-- The whole `linked` validation block (lines 185–234): shape check,
then group resolution, then one message per duplicated name. -/
def linkedCheck (v : JSValue) (pkgNames : List String) : Except String (List String) :=
  match v with
  | .undef => .ok []
  | v =>
    match asLinkedShape v with
    | none => .ok [linkedShapeMsg v]
    | some gs =>
      match linkedLoop pkgNames gs [] [] [] with
      | .error e => .error e
      | .ok md => .ok (md.1 ++ md.2.map dupLinkedMsg)

/-- The ignore-closure messages (lines 274–285): for each raw entry, the
dependents not contained in the raw `ignore` list, in order. -/
def ignoreClosureMsgs (rawIgnore : List String) (packages : Packages) : List String :=
  rawIgnore.flatMap (fun ignoredPackage =>
    ((getDependents packages ignoredPackage).filter
        (fun dependent => !(rawIgnore.contains dependent))).map
      (fun dependent => closureMsg dependent ignoredPackage))

/-- The whole `ignore` validation block (lines 247–287): guarded by JS
truthiness of the raw value, then shape check, then unmatched-pattern
messages, then the closure check against the raw list. -/
def ignoreCheck (v : JSValue) (pkgNames : List String) (packages : Packages) :
    Except String (List String) :=
  if !v.truthy then .ok []
  else
    match asStringList v with
    | none => .ok [ignoreShapeMsg v]
    | some rawIgnore =>
      match normalizePackageNames rawIgnore pkgNames with
      | .error e => .error e
      | .ok r =>
        .ok (r.2.map ignoreUnmatchedMsg ++ ignoreClosureMsgs rawIgnore packages)

/-- One experimental sub-flag's shape check (lines 294–317): a present
non-boolean value yields the flag's message. -/
def expFlagCheck (f : JSValue) (msg : JSValue → String) : List String :=
  match f with
  | .undef => []
  | .bool _ => []
  | w => [msg w]

/-- The experimental-options block (lines 289–318): destructuring a
present `null` value raises a TypeError; otherwise each present
sub-flag must be a boolean. -/
def experimentalCheck (v : JSValue) : Except String (List String) :=
  match v with
  | .undef => .ok []
  | .null => .error destructureErr
  | v =>
    .ok (expFlagCheck (v.getField "onlyUpdatePeerDependentsWhenOutOfRange") expOutOfRangeMsg ++
      expFlagCheck (v.getField "useCalculatedVersionForSnapshots") expSnapshotsMsg)

/-- The message-collection pass of `parse` (lines 122–318): all checks
run in source order into one ordered list; a modelled JS runtime error
(micromatch on an empty pattern, destructuring null) aborts the pass as
the thrown exception does. -/
def collectMessages (json : WrittenConfig) (packages : Packages) :
    Except String (List String) :=
  match linkedCheck json.linked (pkgNamesOf packages) with
  | .error e => .error e
  | .ok m5 =>
    match ignoreCheck json.ignore (pkgNamesOf packages) packages with
    | .error e => .error e
    | .ok m7 =>
      match experimentalCheck json.experimentalOptions with
      | .error e => .error e
      | .ok m8 =>
        .ok (changelogCheck json.changelog ++
          accessCheck (normalizedAccessOf json.access) ++
          commitCheck json.commit ++
          baseBranchCheck json.baseBranch ++
          m5 ++
          updateInternalCheck json.updateInternalDependencies ++
          m7 ++ m8)

/-- The `linked` component of the produced config (lines 338–343):
absent means the default empty list, otherwise every group is resolved
again; a value that is not an array of arrays of strings would reach
micromatch with non-string patterns (unreachable after a clean pass). -/
def resolveLinkedField (v : JSValue) (pkgNames : List String) :
    Except String (List (List String)) :=
  match v with
  | .undef => .ok []
  | v =>
    match asLinkedShape v with
    | some gs => gs.mapM (fun g => (normalizePackageNames g pkgNames).map (fun r => r.1))
    | none => .error micromatchErr

/-- The `ignore` component of the produced config (lines 354–357):
absent means the default empty list, otherwise the raw value is
resolved; a present non-string-array value (such as `null`, `false`,
`0` or `""`, which skipped the truthiness-guarded shape check) reaches
micromatch and raises. -/
def resolveIgnoreField (v : JSValue) (pkgNames : List String) :
    Except String (List String) :=
  match v with
  | .undef => .ok []
  | v =>
    match asStringList v with
    | some l => (normalizePackageNames l pkgNames).map (fun r => r.1)
    | none => .error micromatchErr

/-- The experimental sub-flag of the produced config (lines 361–377). -/
def expFlagValue (expObj : JSValue) (key : String) : JSValue :=
  if expObj.isUndef then .bool false
  else
    match expObj.getField key with
    | .undef => .bool false
    | w => w

/-- The config record built after a clean pass (lines 326–378), given
the re-resolved `linked` groups and `ignore` set. -/
def mkParsedConfig (json : WrittenConfig) (linked : List (List String))
    (ignore : List String) : Config :=
  { changelog :=
      getNormalisedChangelogOption
        (if json.changelog.isUndef then .str "@changesets/cli/changelog" else json.changelog)
    access :=
      (if (normalizedAccessOf json.access).isUndef then .str "restricted"
       else normalizedAccessOf json.access)
    commit := if json.commit.isUndef then .bool false else json.commit
    linked := linked
    baseBranch := if json.baseBranch.isUndef then .str "master" else json.baseBranch
    updateInternalDependencies :=
      if json.updateInternalDependencies.isUndef then .str "patch"
      else json.updateInternalDependencies
    ignore := ignore
    bumpVersionsWithWorkspaceProtocolOnly :=
      (match json.bumpVersionsWithWorkspaceProtocolOnly with
       | .bool true => true
       | _ => false)
    onlyUpdatePeerDependentsWhenOutOfRange :=
      expFlagValue json.experimentalOptions "onlyUpdatePeerDependentsWhenOutOfRange"
    useCalculatedVersionForSnapshots :=
      expFlagValue json.experimentalOptions "useCalculatedVersionForSnapshots" }

/-- The config-building phase of `parse` (lines 326–379). -/
def buildConfig (json : WrittenConfig) (packages : Packages) : Except String Config :=
  match resolveLinkedField json.linked (pkgNamesOf packages) with
  | .error e => .error e
  | .ok linked =>
    match resolveIgnoreField json.ignore (pkgNamesOf packages) with
    | .error e => .error e
    | .ok ignore => .ok (mkParsedConfig json linked ignore)

/-- The error outcomes of `parse`: the `ValidationError` thrown at line
319 with the collected messages, or a modelled JS runtime TypeError. -/
inductive ConfigErr
  | validation (messages : List String)
  | typeError (message : String)

/-- `parse` (config source lines 121–380): collect every violation
message, throw a `ValidationError` with the complete list when any were
collected, otherwise produce the normalized config. -/
def parse (json : WrittenConfig) (packages : Packages) : Except ConfigErr Config :=
  match collectMessages json packages with
  | .error e => .error (.typeError e)
  | .ok messages =>
    if messages.isEmpty then
      match buildConfig json packages with
      | .error e => .error (.typeError e)
      | .ok config => .ok config
    else .error (.validation messages)

/-- `defaultWrittenConfig` (config source lines 62–71); the `$schema`
field takes no part in validation and is omitted. -/
def defaultWrittenConfig : WrittenConfig :=
  { changelog := .str "@changesets/cli/changelog"
    commit := .bool false
    linked := .arr []
    access := .str "restricted"
    baseBranch := .str "master"
    updateInternalDependencies := .str "patch"
    ignore := .arr [] }

/-- `fakePackage` (config source lines 382–388). -/
def fakePackage : Package :=
  { dir := "", packageJson := { name := "", version := "" } }

/-- The degenerate single-root package graph used for the fallback
default config (lines 390–394). -/
def fakePackages : Packages :=
  { root := fakePackage, tool := "root", packages := [fakePackage] }

/-- `defaultConfig = parse(defaultWrittenConfig, ...)` (line 390). -/
def defaultConfig : Except ConfigErr Config := parse defaultWrittenConfig fakePackages

/-- Concrete package: `pkg-a`, no dependencies. -/
def pkgA : Package :=
  { dir := "packages/pkg-a", packageJson := { name := "pkg-a", version := "1.0.0" } }

/-- Concrete package: `pkg-b`, depending on `pkg-a`. -/
def pkgB : Package :=
  { dir := "packages/pkg-b"
    packageJson :=
      { name := "pkg-b", version := "1.0.0"
        dependencies := some [("pkg-a", "^1.0.0")] } }

/-- Concrete package: `pkg-c`, no dependencies. -/
def pkgC : Package :=
  { dir := "packages/pkg-c", packageJson := { name := "pkg-c", version := "1.0.0" } }

/-- A two-package graph in which `pkg-b` depends on `pkg-a`. -/
def twoPkgs : Packages :=
  { root := { dir := ".", packageJson := { name := "root", version := "1.0.0" } }
    tool := "pnpm"
    packages := [pkgA, pkgB] }

/-- A three-package graph with no dependency edges. -/
def threePkgs : Packages :=
  { root := { dir := ".", packageJson := { name := "root", version := "1.0.0" } }
    tool := "pnpm"
    packages :=
      [{ dir := "p1", packageJson := { name := "pkg-1", version := "1.0.0" } },
       { dir := "p2", packageJson := { name := "pkg-2", version := "1.0.0" } },
       { dir := "p3", packageJson := { name := "pkg-3", version := "1.0.0" } }] }

/-- Raw config whose `ignore` is the glob `pkg-a*`. -/
def globIgnoreConfig : WrittenConfig := { ignore := .arr [.str "pkg-a*"] }

/-- Raw config whose `ignore` is the literal list `["pkg-a"]`. -/
def literalIgnoreConfig : WrittenConfig := { ignore := .arr [.str "pkg-a"] }

/-- Raw config whose `ignore` is present but `false` (falsy). -/
def falsyIgnoreConfig : WrittenConfig := { ignore := .bool false }

/-- Raw config whose `ignore` is present but `null` (falsy). -/
def nullIgnoreConfig : WrittenConfig := { ignore := .null }

/-- Raw config whose `ignore` is the truthy non-array string `"nope"`. -/
def stringIgnoreConfig : WrittenConfig := { ignore := .str "nope" }

/-- Raw config with overlapping linked groups (spec example 6). -/
def dupLinkedConfig : WrittenConfig :=
  { linked := .arr [.arr [.str "pkg-1", .str "pkg-2"], .arr [.str "pkg-2", .str "pkg-3"]] }

/-- Raw config with two disjoint linked groups. -/
def twoGroupsConfig : WrittenConfig :=
  { linked := .arr [.arr [.str "pkg-1"], .arr [.str "pkg-2"]] }

/-- Raw config with an invalid `access` value. -/
def badAccessConfig : WrittenConfig := { access := .str "nope" }

/-- The empty raw config (every field absent). -/
def emptyConfig : WrittenConfig := {}

/-- A concrete release for `versionPackage`: `pkg-b` goes to `2.0.0`,
with one caret dependency on `pkg-a` and one unrelated dependency. -/
def sampleRelease : Release :=
  { name := "pkg-b"
    type := "major"
    oldVersion := "1.0.0"
    newVersion := "2.0.0"
    changesets := ["fluffy-pandas-smile"]
    changelog := none
    dir := "packages/pkg-b"
    packageJson :=
      { name := "pkg-b", version := "1.0.0"
        dependencies := some [("pkg-a", "^1.0.0"), ("left-pad", "~1.3.0")] } }

/-- The glob metacharacters of the Name Matcher: every character
micromatch can treat specially — the wildcards, the question mark, the
class and brace delimiters, the extglob parentheses and pipe, the
negation mark and the escape character. -/
def globMetaChars : List Char :=
  ['*', '?', '[', ']', '{', '}', '(', ')', '|', '!', '\\']

/-- A pattern containing no glob metacharacter at all: under the Name
Matcher such a pattern can only match itself. -/
def literalPattern (p : String) : Bool :=
  p.data.all (fun c => decide (c ∉ globMetaChars))

/-- Raw config whose `ignore` lists both packages literally. -/
def bothIgnoreConfig : WrittenConfig := { ignore := .arr [.str "pkg-a", .str "pkg-b"] }

/-- The fixed fallback config: every field at its documented default. -/
def fallbackConfig : Config :=
  { changelog := .arr [.str "@changesets/cli/changelog", .null]
    access := .str "restricted"
    commit := .bool false
    linked := []
    baseBranch := .str "master"
    updateInternalDependencies := .str "patch"
    ignore := []
    bumpVersionsWithWorkspaceProtocolOnly := false
    onlyUpdatePeerDependentsWhenOutOfRange := .bool false
    useCalculatedVersionForSnapshots := .bool false }

/-- Raw config with a non-boolean `bumpVersionsWithWorkspaceProtocolOnly`. -/
def bumpYesConfig : WrittenConfig :=
  { ignore := .arr [.str "pkg-a"], bumpVersionsWithWorkspaceProtocolOnly := .str "yes" }

/-- A one-package graph containing only `pkg-a`. -/
def onePkgGraph : Packages :=
  { root := fakePackage, tool := "root"
    packages := [{ dir := "pa", packageJson := { name := "pkg-a", version := "1.0.0" } }] }

/-! ## Generic helper lemmas -/

theorem append_ne_of_take_ne (p q x y : String) (k : Nat)
    (hp : k ≤ p.data.length) (hq : k ≤ q.data.length)
    (hne : p.data.take k ≠ q.data.take k) : p ++ x ≠ q ++ y := by
  intro he
  apply hne
  have hd := congrArg String.data he
  rw [String.data_append, String.data_append] at hd
  calc p.data.take k = (p.data ++ x.data).take k :=
        (List.take_append_of_le_length hp).symm
    _ = (q.data ++ y.data).take k := by rw [hd]
    _ = q.data.take k := List.take_append_of_le_length hq

theorem append_ne_of_rev_take_ne (a b s t : String) (k : Nat)
    (hs : k ≤ s.data.length) (ht : k ≤ t.data.length)
    (hne : s.data.reverse.take k ≠ t.data.reverse.take k) : a ++ s ≠ b ++ t := by
  intro he
  apply hne
  have hd := congrArg (fun z : String => z.data.reverse) he
  simp only [String.data_append, List.reverse_append] at hd
  calc s.data.reverse.take k = (s.data.reverse ++ a.data.reverse).take k :=
        (List.take_append_of_le_length (by simpa using hs)).symm
    _ = (t.data.reverse ++ b.data.reverse).take k := by rw [hd]
    _ = t.data.reverse.take k := List.take_append_of_le_length (by simpa using ht)

/-! ## Structure of `parse` -/

theorem parse_ok_iff (json : WrittenConfig) (packages : Packages) (c : Config) :
    parse json packages = .ok c ↔
      collectMessages json packages = .ok [] ∧ buildConfig json packages = .ok c := by
  unfold parse
  cases hc : collectMessages json packages with
  | error e => simp
  | ok messages =>
    cases messages with
    | nil =>
      simp only [List.isEmpty_nil, if_true]
      cases hb : buildConfig json packages with
      | error e => simp
      | ok cfg => simp
    | cons m ms => simp

theorem parse_validation_iff (json : WrittenConfig) (packages : Packages)
    (msgs : List String) :
    parse json packages = .error (.validation msgs) ↔
      collectMessages json packages = .ok msgs ∧ msgs ≠ [] := by
  unfold parse
  cases hc : collectMessages json packages with
  | error e => simp
  | ok messages =>
    cases messages with
    | nil =>
      simp only [List.isEmpty_nil, if_true]
      cases hb : buildConfig json packages with
      | error e => simp
      | ok cfg => simp
    | cons m ms =>
      simp only [List.isEmpty_cons, if_false, Bool.false_eq_true]
      constructor
      · intro h
        cases h
        exact ⟨rfl, by simp⟩
      · rintro ⟨h, -⟩
        cases h
        rfl

/-! ## Claim C2: protocol-pinned ranges -/

/-- C2 counterexample: the declared range `file:../pkg-b` (the spec's
third example) is not in the exact skip list, reaches the semver parser
and raises `InvalidRangeError` instead of being left unchanged. -/
theorem protocol_suffix_raises :
    rewriteDep "file:../pkg-b" "9.9.9" = .error "Invalid range: file:../pkg-b" ∧
      rewriteDep "file:../pkg-b" "9.9.9" ≠ .ok "file:../pkg-b" := by
  refine ⟨rfl, fun h => ?_⟩
  rw [show rewriteDep "file:../pkg-b" "9.9.9"
        = .error "Invalid range: file:../pkg-b" from rfl] at h
  exact Except.noConfusion h

/-- C2 (amended): only the four exact strings `link:`, `link:.`, `file:`,
`file:.` are protocol-pinned; for those, the rewrite is a no-op for every
new version. -/
theorem rewriteDep_pinned_exact (r v : String) (h : r ∈ pinnedProtocols) :
    rewriteDep r v = .ok r := by
  unfold rewriteDep
  rw [if_pos (Or.inr h)]

/-- Witness for `rewriteDep_pinned_exact` at `file:` and version `9.9.9`. -/
theorem rewriteDep_pinned_exact_witness :
    "file:" ∈ pinnedProtocols ∧ rewriteDep "file:" "9.9.9" = .ok "file:" :=
  ⟨by decide, rewriteDep_pinned_exact "file:" "9.9.9" (by decide)⟩

/-! ## Claim C7: any-version ranges are preserved -/

/-- C7: a declared range whose normalized semver form is the universal
"any version" range is left unchanged by the rewrite, with or without
the workspace marker, for every new version. -/
theorem rewriteDep_any_version (inner v : String) (h : parseRange inner = .ok true) :
    rewriteDep inner v = .ok inner ∧
      rewriteDep ("workspace:" ++ inner) v = .ok ("workspace:" ++ inner) := by
  have hw : inner = "" ∨ inner = "*" ∨ inner = "x" ∨ inner = "X" := by
    by_contra hcon
    unfold parseRange at h
    rw [if_neg hcon] at h
    by_cases hc :
        stripRangeOp inner.data ≠ [] ∧ (stripRangeOp inner.data).all versionCharOk
    · rw [if_pos hc] at h
      exact absurd h (by simp)
    · rw [if_neg hc] at h
      exact Except.noConfusion h
  rcases hw with rfl | rfl | rfl | rfl
  · exact ⟨rfl, rfl⟩
  · exact ⟨rfl, rfl⟩
  · exact ⟨rfl, rfl⟩
  · exact ⟨rfl, rfl⟩

/-- Witness for `rewriteDep_any_version` at `*` (the spec's fourth
scenario). -/
theorem rewriteDep_any_version_witness :
    rewriteDep "*" "9.9.9" = .ok "*" ∧
      rewriteDep "workspace:*" "9.9.9" = .ok "workspace:*" :=
  rewriteDep_any_version "*" "9.9.9" rfl

/-! ## Claim C5: rewriting preserves range shape -/

theorem isDigit_ne_ops (d : Char) (h : d.isDigit = true) :
    d ≠ '^' ∧ d ≠ '~' ∧ d ≠ '>' ∧ d ≠ '<' ∧ d ≠ '=' := by
  refine ⟨?_, ?_, ?_, ?_, ?_⟩ <;> rintro rfl <;> exact absurd h (by decide)

theorem rangeType_mem (l : List Char) :
    rangeTypeOfChars l = ">=" ∨ rangeTypeOfChars l = "<=" ∨ rangeTypeOfChars l = "^" ∨
      rangeTypeOfChars l = "~" ∨ rangeTypeOfChars l = ">" ∨ rangeTypeOfChars l = "<" ∨
      rangeTypeOfChars l = "" := by
  unfold rangeTypeOfChars
  split_ifs <;> simp

theorem rangeTypeOfChars_digit_cases (d : Char) (t : List Char) (hd : d.isDigit = true) :
    rangeTypeOfChars (d :: t) = "" ∧
      rangeTypeOfChars ('^' :: d :: t) = "^" ∧
      rangeTypeOfChars ('~' :: d :: t) = "~" ∧
      rangeTypeOfChars ('>' :: '=' :: d :: t) = ">=" ∧
      rangeTypeOfChars ('<' :: '=' :: d :: t) = "<=" ∧
      rangeTypeOfChars ('>' :: d :: t) = ">" ∧
      rangeTypeOfChars ('<' :: d :: t) = "<" := by
  obtain ⟨h1, h2, h3, h4, h5⟩ := isDigit_ne_ops d hd
  unfold rangeTypeOfChars
  refine ⟨?_, ?_, ?_, ?_, ?_, ?_, ?_⟩ <;>
    simp [List.take, h1, h2, h3, h4, h5]

theorem rangeType_append_digit (r v : String) (hv : startsWithDigit v = true) :
    getVersionRangeType (getVersionRangeType r ++ v) = getVersionRangeType r := by
  unfold startsWithDigit at hv
  rcases hvd : v.data with - | ⟨d, t⟩
  · rw [hvd] at hv
    exact absurd hv (by simp)
  · rw [hvd] at hv
    have hc := rangeTypeOfChars_digit_cases d t hv
    unfold getVersionRangeType
    rw [String.data_append]
    rcases rangeType_mem r.data with h | h | h | h | h | h | h <;>
      rw [h, hvd] <;>
      first
        | exact hc.2.2.2.1
        | exact hc.2.2.2.2.1
        | exact hc.2.1
        | exact hc.2.2.1
        | exact hc.2.2.2.2.2.1
        | exact hc.2.2.2.2.2.2
        | exact hc.1

theorem ws_append_data (s : String) :
    ("workspace:" ++ s).data =
      'w' :: 'o' :: 'r' :: 'k' :: 's' :: 'p' :: 'a' :: 'c' :: 'e' :: ':' :: s.data := by
  rw [String.data_append]
  rfl

theorem ws_append_not_pinned (s : String) :
    ¬("workspace:" ++ s = "" ∨ "workspace:" ++ s ∈ pinnedProtocols) := by
  have hd := ws_append_data s
  rintro (h | h)
  · have := congrArg String.data h
    rw [hd] at this
    exact absurd this (by simp [show ("" : String).data = [] from rfl])
  · simp only [pinnedProtocols, List.mem_cons, List.not_mem_nil, or_false] at h
    rcases h with h | h | h | h <;>
      { have := congrArg String.data h
        rw [hd] at this
        simp only [show ("link:" : String).data = ['l', 'i', 'n', 'k', ':'] from rfl,
          show ("link:." : String).data = ['l', 'i', 'n', 'k', ':', '.'] from rfl,
          show ("file:" : String).data = ['f', 'i', 'l', 'e', ':'] from rfl,
          show ("file:." : String).data = ['f', 'i', 'l', 'e', ':', '.'] from rfl] at this
        simp at this }

theorem jsStartsWith_ws (s : String) :
    jsStartsWith ("workspace:" ++ s) "workspace:" = true := by
  unfold jsStartsWith
  rw [List.isPrefixOf_iff_prefix, String.data_append]
  exact List.prefix_append _ _

theorem strDrop_ws (s : String) : strDrop ("workspace:" ++ s) 10 = s := by
  unfold strDrop
  apply String.ext
  show ("workspace:" ++ s).data.drop 10 = s.data
  rw [String.data_append]
  exact List.drop_left "workspace:".data s.data

/-- C5: rewriting preserves range shape.  First part: for a declared
range not carrying the workspace marker, whenever the rewrite produces a
result, the result classifies to the same range type as the original
(this subsumes the skipped cases, where the result is the original).
Second part: for a workspace-marked declared range, the result keeps the
marker and the marker-stripped sides classify equal. -/
theorem rewrite_preserves_range_shape :
    (∀ r v r', jsStartsWith r "workspace:" = false → startsWithDigit v = true →
        rewriteDep r v = .ok r' → getVersionRangeType r' = getVersionRangeType r) ∧
      (∀ inner v r', startsWithDigit v = true →
        rewriteDep ("workspace:" ++ inner) v = .ok r' →
        ∃ innerResult, r' = "workspace:" ++ innerResult ∧
          getVersionRangeType innerResult = getVersionRangeType inner) := by
  constructor
  · intro r v r' hws hv h
    unfold rewriteDep at h
    by_cases h0 : r = "" ∨ r ∈ pinnedProtocols
    · rw [if_pos h0] at h
      cases h
      rfl
    · rw [if_neg h0] at h
      simp only [hws, if_false, Bool.false_eq_true] at h
      cases hp : parseRange r with
      | error e => rw [hp] at h; exact Except.noConfusion h
      | ok isAnyRange =>
        rw [hp] at h
        cases isAnyRange with
        | true =>
          simp only [if_true] at h
          cases h
          rfl
        | false =>
          simp only [Bool.false_eq_true, if_false] at h
          cases h
          exact rangeType_append_digit r v hv
  · intro inner v r' hv h
    unfold rewriteDep at h
    rw [if_neg (ws_append_not_pinned inner)] at h
    simp only [jsStartsWith_ws, if_true, strDrop_ws] at h
    cases hp : parseRange inner with
    | error e => rw [hp] at h; exact Except.noConfusion h
    | ok isAnyRange =>
      rw [hp] at h
      cases isAnyRange with
      | true =>
        simp only [if_true] at h
        cases h
        exact ⟨inner, rfl, rfl⟩
      | false =>
        simp only [Bool.false_eq_true, if_false] at h
        cases h
        exact ⟨getVersionRangeType inner ++ v, rfl, rangeType_append_digit inner v hv⟩

/-- Witness for `rewrite_preserves_range_shape`: the spec's first two
scenarios (`^1.2.3` to version `4.5.6`, and `workspace:~1.2.0` to
`2.0.0`). -/
theorem rewrite_preserves_range_shape_witness :
    getVersionRangeType "^4.5.6" = getVersionRangeType "^1.2.3" ∧
      (∃ innerResult, "workspace:~2.0.0" = "workspace:" ++ innerResult ∧
        getVersionRangeType innerResult = getVersionRangeType "~1.2.0") :=
  ⟨rewrite_preserves_range_shape.1 "^1.2.3" "4.5.6" "^4.5.6" rfl rfl rfl,
    rewrite_preserves_range_shape.2 "~1.2.0" "2.0.0" "workspace:~2.0.0" rfl rfl⟩

/-! ## Claim C3: the rewrite frame -/

theorem lookupDep_setDep_ne (deps : List (String × String)) (name nv k : String)
    (hk : name ≠ k) : lookupDep (setDep deps name nv) k = lookupDep deps k := by
  induction deps with
  | nil => rfl
  | cons kv rest ih =>
    obtain ⟨dk, dv⟩ := kv
    unfold setDep
    by_cases hd : dk = name
    · rw [if_pos hd]
      unfold lookupDep
      rw [if_neg (hd ▸ hk), if_neg (hd ▸ hk)]
    · rw [if_neg hd]
      unfold lookupDep
      by_cases hdk : dk = k
      · rw [if_pos hdk, if_pos hdk]
      · rw [if_neg hdk, if_neg hdk]
        exact ih

theorem applyUpdatesToDeps_frame (us : List VersionUpdate) :
    ∀ (deps deps' : List (String × String)) (k : String),
      (∀ u ∈ us, u.name ≠ k) → applyUpdatesToDeps deps us = .ok deps' →
      lookupDep deps' k = lookupDep deps k := by
  induction us with
  | nil =>
    intro deps deps' k _ h
    cases h
    rfl
  | cons u rest ih =>
    intro deps deps' k hk h
    cases hl : lookupDep deps u.name with
    | none =>
      simp only [applyUpdatesToDeps, hl] at h
      exact ih deps deps' k (fun w hw => hk w (List.mem_cons_of_mem u hw)) h
    | some cur =>
      cases hr : rewriteDep cur u.version with
      | error e =>
        simp only [applyUpdatesToDeps, hl, hr] at h
        exact Except.noConfusion h
      | ok newRange =>
        simp only [applyUpdatesToDeps, hl, hr] at h
        have := ih _ deps' k (fun w hw => hk w (List.mem_cons_of_mem u hw)) h
        rw [this, lookupDep_setDep_ne deps u.name newRange k (hk u (List.mem_cons_self u rest))]

theorem applyUpdatesToBlock_frame (o o' : Option (List (String × String)))
    (us : List VersionUpdate) (k : String) (hk : ∀ u ∈ us, u.name ≠ k)
    (h : applyUpdatesToBlock o us = .ok o') :
    o'.isSome = o.isSome ∧
      o'.bind (fun deps => lookupDep deps k) = o.bind (fun deps => lookupDep deps k) := by
  cases o with
  | none =>
    cases h
    exact ⟨rfl, rfl⟩
  | some deps =>
    cases ha : applyUpdatesToDeps deps us with
    | error e =>
      simp only [applyUpdatesToBlock, ha, Except.map] at h
      exact Except.noConfusion h
    | ok d =>
      simp only [applyUpdatesToBlock, ha, Except.map] at h
      cases h
      exact ⟨rfl, applyUpdatesToDeps_frame us deps d k hk ha⟩

/-- C3 counterexample: with an empty update list (so no dependency entry
is targeted at all) the rewriter still assigns the owning package's own
`version` field, from `release.newVersion` — the input manifest's
version `1.0.0` becomes `2.0.0` in the output. -/
theorem version_assigned_counterexample :
    (versionPackage sampleRelease []).map (fun r => r.packageJson.version) = .ok "2.0.0" ∧
      sampleRelease.packageJson.version = "1.0.0" := ⟨rfl, rfl⟩

/-- C3 (amended): `versionPackage` is a pure value transformation whose
frame covers everything except the targeted dependency entries *and the
owning package's own `version` field*, which the function itself assigns
to `release.newVersion` (in-place mutation of the JS input object is not
observable in this value semantics and is not modelled): every other
`release` field, the manifest's `name`, the presence of each
dependency-type block and every dependency entry whose name is not in
the update list are unchanged. -/
theorem version_package_frame (release : Release) (updates : List VersionUpdate)
    (result : Release) (h : versionPackage release updates = .ok result) :
    result.name = release.name ∧ result.type = release.type ∧
      result.oldVersion = release.oldVersion ∧ result.newVersion = release.newVersion ∧
      result.changesets = release.changesets ∧ result.changelog = release.changelog ∧
      result.dir = release.dir ∧
      result.packageJson.name = release.packageJson.name ∧
      result.packageJson.version = release.newVersion ∧
      ∀ (t : DependencyType) (k : String), (∀ u ∈ updates, u.name ≠ k) →
        (result.packageJson.depsOf t).isSome = (release.packageJson.depsOf t).isSome ∧
          (result.packageJson.depsOf t).bind (fun deps => lookupDep deps k) =
            (release.packageJson.depsOf t).bind (fun deps => lookupDep deps k) := by
  unfold versionPackage at h
  simp only [bind, Except.bind] at h
  cases h1 : applyUpdatesToBlock release.packageJson.dependencies updates with
  | error e => rw [h1] at h; exact Except.noConfusion h
  | ok d1 =>
    rw [h1] at h
    cases h2 : applyUpdatesToBlock release.packageJson.devDependencies updates with
    | error e => rw [h2] at h; exact Except.noConfusion h
    | ok d2 =>
      rw [h2] at h
      cases h3 : applyUpdatesToBlock release.packageJson.peerDependencies updates with
      | error e => rw [h3] at h; exact Except.noConfusion h
      | ok d3 =>
        rw [h3] at h
        cases h4 : applyUpdatesToBlock release.packageJson.optionalDependencies updates with
        | error e => rw [h4] at h; exact Except.noConfusion h
        | ok d4 =>
          rw [h4] at h
          cases h
          refine ⟨rfl, rfl, rfl, rfl, rfl, rfl, rfl, rfl, rfl, ?_⟩
          intro t k hk
          cases t with
          | dependencies => exact applyUpdatesToBlock_frame _ d1 updates k hk h1
          | devDependencies => exact applyUpdatesToBlock_frame _ d2 updates k hk h2
          | peerDependencies => exact applyUpdatesToBlock_frame _ d3 updates k hk h3
          | optionalDependencies => exact applyUpdatesToBlock_frame _ d4 updates k hk h4

/-- Witness for `version_package_frame`: rewriting `pkg-a` in
`sampleRelease` leaves the untouched entry `left-pad` and all other
fields intact while the own version becomes `2.0.0`. -/
theorem version_package_frame_witness :
    versionPackage sampleRelease [⟨"pkg-a", "4.0.0"⟩] =
        .ok
          { name := "pkg-b", type := "major", oldVersion := "1.0.0"
            newVersion := "2.0.0", changesets := ["fluffy-pandas-smile"]
            changelog := none, dir := "packages/pkg-b"
            packageJson :=
              { name := "pkg-b", version := "2.0.0"
                dependencies := some [("pkg-a", "^4.0.0"), ("left-pad", "~1.3.0")] } } ∧
      (∀ u ∈ ([⟨"pkg-a", "4.0.0"⟩] : List VersionUpdate), u.name ≠ "left-pad") ∧
      ({ name := "pkg-b", type := "major", oldVersion := "1.0.0"
         newVersion := "2.0.0", changesets := ["fluffy-pandas-smile"]
         changelog := none, dir := "packages/pkg-b"
         packageJson :=
           { name := "pkg-b", version := "2.0.0"
             dependencies := some [("pkg-a", "^4.0.0"), ("left-pad", "~1.3.0")] } :
            Release}.packageJson.depsOf .dependencies).bind
          (fun deps => lookupDep deps "left-pad") =
        (sampleRelease.packageJson.depsOf .dependencies).bind
          (fun deps => lookupDep deps "left-pad") :=
  ⟨rfl, by decide,
    ((version_package_frame sampleRelease [⟨"pkg-a", "4.0.0"⟩] _ rfl).2.2.2.2.2.2.2.2.2
      .dependencies "left-pad" (by decide)).2⟩

/-! ## Structure of `buildConfig` -/

theorem buildConfig_ok_shape (json : WrittenConfig) (packages : Packages) (c : Config)
    (h : buildConfig json packages = .ok c) :
    ∃ lv iv, resolveLinkedField json.linked (pkgNamesOf packages) = .ok lv ∧
      resolveIgnoreField json.ignore (pkgNamesOf packages) = .ok iv ∧
      c = mkParsedConfig json lv iv := by
  cases h1 : resolveLinkedField json.linked (pkgNamesOf packages) with
  | error e =>
    simp only [buildConfig, h1] at h
    exact Except.noConfusion h
  | ok lv =>
    cases h2 : resolveIgnoreField json.ignore (pkgNamesOf packages) with
    | error e =>
      simp only [buildConfig, h1, h2] at h
      exact Except.noConfusion h
    | ok iv =>
      simp only [buildConfig, h1, h2] at h
      cases h
      exact ⟨lv, iv, rfl, rfl, rfl⟩

/-! ## Claim C10: the workspace-protocol-only flag is never validated -/

/-- C10: `bumpVersionsWithWorkspaceProtocolOnly` is never shape-checked:
on success the resulting flag is `true` exactly when the raw value is
the boolean `true` (any other value silently becomes `false`), and the
raw value contributes nothing to the message-collection pass. -/
theorem bump_flag_not_validated :
    (∀ json packages c, parse json packages = .ok c →
      (c.bumpVersionsWithWorkspaceProtocolOnly = true ↔
        json.bumpVersionsWithWorkspaceProtocolOnly = JSValue.bool true)) ∧
      (∀ json packages v,
        collectMessages { json with bumpVersionsWithWorkspaceProtocolOnly := v } packages =
          collectMessages json packages) := by
  constructor
  · intro json packages c h
    obtain ⟨-, hb⟩ := (parse_ok_iff json packages c).mp h
    obtain ⟨lv, iv, -, -, rfl⟩ := buildConfig_ok_shape json packages c hb
    cases hv : json.bumpVersionsWithWorkspaceProtocolOnly <;>
      simp [mkParsedConfig, hv]
    rename_i b
    cases b <;> simp
  · intro json packages v
    cases json
    rfl

/-- Witness for `bump_flag_not_validated`: the string value `"yes"` is
silently normalized to `false` and contributes no violation. -/
theorem bump_flag_not_validated_witness :
    (Config.bumpVersionsWithWorkspaceProtocolOnly
            { fallbackConfig with ignore := ["pkg-a"] } = true ↔
        bumpYesConfig.bumpVersionsWithWorkspaceProtocolOnly = JSValue.bool true) ∧
      collectMessages
          { emptyConfig with bumpVersionsWithWorkspaceProtocolOnly := .str "yes" } fakePackages =
        collectMessages emptyConfig fakePackages :=
  ⟨bump_flag_not_validated.1 bumpYesConfig onePkgGraph _ rfl,
    bump_flag_not_validated.2 emptyConfig fakePackages (.str "yes")⟩

/-! ## Claim C9: defaults -/

/-- C9: on success every unset field takes its documented default, and
validating the default written config against the degenerate single-root
package graph succeeds with the fixed fallback config. -/
theorem config_defaults :
    (∀ json packages c, parse json packages = .ok c →
      ((json.changelog = .undef →
          c.changelog = .arr [.str "@changesets/cli/changelog", .null]) ∧
        (json.access = .undef → c.access = .str "restricted") ∧
        (json.commit = .undef → c.commit = .bool false) ∧
        (json.linked = .undef → c.linked = []) ∧
        (json.baseBranch = .undef → c.baseBranch = .str "master") ∧
        (json.updateInternalDependencies = .undef →
          c.updateInternalDependencies = .str "patch") ∧
        (json.ignore = .undef → c.ignore = []) ∧
        (json.bumpVersionsWithWorkspaceProtocolOnly = .undef →
          c.bumpVersionsWithWorkspaceProtocolOnly = false) ∧
        (json.experimentalOptions = .undef →
          c.onlyUpdatePeerDependentsWhenOutOfRange = .bool false ∧
            c.useCalculatedVersionForSnapshots = .bool false))) ∧
      defaultConfig = .ok fallbackConfig := by
  constructor
  · intro json packages c h
    obtain ⟨-, hb⟩ := (parse_ok_iff json packages c).mp h
    obtain ⟨lv, iv, h1, h2, rfl⟩ := buildConfig_ok_shape json packages c hb
    refine ⟨?_, ?_, ?_, ?_, ?_, ?_, ?_, ?_, ?_⟩
    · intro he
      simp [mkParsedConfig, he, JSValue.isUndef, getNormalisedChangelogOption]
    · intro he
      simp [mkParsedConfig, he, JSValue.isUndef, normalizedAccessOf]
    · intro he
      simp [mkParsedConfig, he, JSValue.isUndef]
    · intro he
      rw [he] at h1
      simp only [resolveLinkedField] at h1
      cases h1
      rfl
    · intro he
      simp [mkParsedConfig, he, JSValue.isUndef]
    · intro he
      simp [mkParsedConfig, he, JSValue.isUndef]
    · intro he
      rw [he] at h2
      simp only [resolveIgnoreField] at h2
      cases h2
      rfl
    · intro he
      simp [mkParsedConfig, he]
    · intro he
      constructor <;> simp [mkParsedConfig, he, expFlagValue, JSValue.isUndef]
  · rfl

/-- Witness for `config_defaults`: the empty raw config validated
against the degenerate graph takes every default, and the fallback
config derivation succeeds. -/
theorem config_defaults_witness :
    fallbackConfig.changelog = .arr [.str "@changesets/cli/changelog", .null] ∧
      defaultConfig = .ok fallbackConfig :=
  ⟨(config_defaults.1 emptyConfig fakePackages fallbackConfig rfl).1 rfl,
    config_defaults.2⟩

/-! ## Structure of `collectMessages` -/

theorem collectMessages_ok_shape (json : WrittenConfig) (packages : Packages)
    (msgs : List String) (h : collectMessages json packages = .ok msgs) :
    ∃ m5 m7 m8, linkedCheck json.linked (pkgNamesOf packages) = .ok m5 ∧
      ignoreCheck json.ignore (pkgNamesOf packages) packages = .ok m7 ∧
      experimentalCheck json.experimentalOptions = .ok m8 ∧
      msgs = changelogCheck json.changelog ++
        accessCheck (normalizedAccessOf json.access) ++ commitCheck json.commit ++
        baseBranchCheck json.baseBranch ++ m5 ++
        updateInternalCheck json.updateInternalDependencies ++ m7 ++ m8 := by
  cases h5 : linkedCheck json.linked (pkgNamesOf packages) with
  | error e =>
    simp only [collectMessages, h5] at h
    exact Except.noConfusion h
  | ok m5 =>
    cases h7 : ignoreCheck json.ignore (pkgNamesOf packages) packages with
    | error e =>
      simp only [collectMessages, h5, h7] at h
      exact Except.noConfusion h
    | ok m7 =>
      cases h8 : experimentalCheck json.experimentalOptions with
      | error e =>
        simp only [collectMessages, h5, h7, h8] at h
        exact Except.noConfusion h
      | ok m8 =>
        simp only [collectMessages, h5, h7, h8] at h
        cases h
        exact ⟨m5, m7, m8, rfl, rfl, rfl, rfl⟩

/-! ## Claim C8: the `ignore` shape check -/

/-- C8 counterexample: `ignore: false` is present and not an array of
strings, yet the truthiness-guarded shape check is skipped, no violation
at all is collected, and `parse` instead fails with the name matcher's
TypeError while normalizing the config. -/
theorem falsy_ignore_skips_validation :
    collectMessages falsyIgnoreConfig twoPkgs = .ok [] ∧
      parse falsyIgnoreConfig twoPkgs = .error (.typeError micromatchErr) := ⟨rfl, rfl⟩

/-- C8 (amended): when `ignore` is present, *truthy* and not an array of
strings, validation collects the `ignore` violation and fails with the
`ConfigValidationError`; a present-but-falsy value (such as `null`,
`false`, `0` or `""`) skips the shape check and collects nothing. -/
theorem ignore_shape_violation (json : WrittenConfig) (packages : Packages)
    (msgs : List String) (htruthy : json.ignore.truthy = true)
    (hshape : asStringList json.ignore = none)
    (hc : collectMessages json packages = .ok msgs) :
    ignoreShapeMsg json.ignore ∈ msgs ∧
      parse json packages = .error (.validation msgs) := by
  obtain ⟨m5, m7, m8, h5, h7, h8, hm⟩ := collectMessages_ok_shape json packages msgs hc
  have h7v : m7 = [ignoreShapeMsg json.ignore] := by
    unfold ignoreCheck at h7
    rw [htruthy] at h7
    simp only [Bool.not_true, Bool.false_eq_true, if_false, hshape] at h7
    cases h7
    rfl
  have hmem : ignoreShapeMsg json.ignore ∈ msgs := by
    rw [hm, h7v]
    simp
  refine ⟨hmem, (parse_validation_iff json packages msgs).mpr ⟨hc, ?_⟩⟩
  intro hnil
  rw [hnil] at hmem
  exact List.not_mem_nil _ hmem

/-- Witness for `ignore_shape_violation`: `ignore: "nope"` (truthy, not
an array) on the two-package graph. -/
theorem ignore_shape_violation_witness :
    ignoreShapeMsg (.str "nope") ∈ [ignoreShapeMsg (.str "nope")] ∧
      parse stringIgnoreConfig twoPkgs =
        .error (.validation [ignoreShapeMsg (.str "nope")]) :=
  ignore_shape_violation stringIgnoreConfig twoPkgs [ignoreShapeMsg (.str "nope")]
    rfl rfl rfl

/-! ## Claim C4: error discipline of `parse` -/

/-- C4 counterexample: with `ignore: null` the pass collects no
violation, and `parse` fails with the modelled micromatch TypeError —
not with a `ConfigValidationError`. -/
theorem null_ignore_type_error :
    parse nullIgnoreConfig twoPkgs = .error (.typeError micromatchErr) := rfl

/-- C4 (amended): apart from the modelled JS runtime TypeErrors (raised
when a present-but-falsy `ignore`, an empty-string pattern or a `null`
experimental object reaches micromatch or destructuring), `parse` either
returns a config or fails with one `ConfigValidationError` carrying
exactly the complete ordered message list of the whole pass: a
validation failure carries the full collected list, success implies the
pass collected nothing, and a non-empty collected list always produces
the validation failure with that very list. -/
theorem parse_error_discipline (json : WrittenConfig) (packages : Packages) :
    (∀ msgs, parse json packages = .error (.validation msgs) →
        collectMessages json packages = .ok msgs ∧ msgs ≠ []) ∧
      (∀ c, parse json packages = .ok c → collectMessages json packages = .ok []) ∧
      (∀ msgs, collectMessages json packages = .ok msgs → msgs ≠ [] →
        parse json packages = .error (.validation msgs)) := by
  refine ⟨?_, ?_, ?_⟩
  · intro msgs h
    exact (parse_validation_iff json packages msgs).mp h
  · intro c h
    exact ((parse_ok_iff json packages c).mp h).1
  · intro msgs hc hne
    exact (parse_validation_iff json packages msgs).mpr ⟨hc, hne⟩

/-- Witness for `parse_error_discipline`: an invalid `access` value
produces exactly the one-message validation failure. -/
theorem parse_error_discipline_witness :
    parse badAccessConfig twoPkgs =
      .error (.validation [accessShapeMsg (.str "nope")]) :=
  (parse_error_discipline badAccessConfig twoPkgs).2.2
    [accessShapeMsg (.str "nope")] rfl (List.cons_ne_nil _ _)

/-! ## Claim C1: the ignore-closure invariant -/

theorem contains_iff_mem (l : List String) (a : String) :
    l.contains a = true ↔ a ∈ l :=
  List.elem_iff

theorem globAux_literal (f : Nat) : ∀ (ps ns : List Char),
    (∀ c ∈ ps, c ∉ globMetaChars) →
    ps.length + ns.length < f → (globAux f ps ns = true ↔ ps = ns) := by
  induction f with
  | zero =>
    intro ps ns _ hlt
    exact absurd hlt (Nat.not_lt_zero _)
  | succ f ih =>
    intro ps ns hmeta hlt
    cases ps with
    | nil =>
      cases ns with
      | nil => simp [globAux]
      | cons c t => simp [globAux]
    | cons p ps' =>
      have hpmem : p ∉ globMetaChars := hmeta p (List.mem_cons_self p ps')
      have hps : p ≠ '*' ∧ p ≠ '?' ∧ p ≠ '[' ∧ p ≠ '{' := by
        simp only [globMetaChars, List.mem_cons, List.not_mem_nil, or_false,
          not_or] at hpmem
        exact ⟨hpmem.1, hpmem.2.1, hpmem.2.2.1, hpmem.2.2.2.2.1⟩
      cases ns with
      | nil =>
        simp [globAux, if_neg hps.1, if_neg hps.2.1, if_neg hps.2.2.1,
          if_neg hps.2.2.2]
      | cons c t =>
        have hrest : ∀ d ∈ ps', d ∉ globMetaChars :=
          fun d hd => hmeta d (List.mem_cons_of_mem p hd)
        have hlen : ps'.length + t.length < f := by
          simp only [List.length_cons] at hlt
          omega
        simp [globAux, if_neg hps.1, if_neg hps.2.1, if_neg hps.2.2.1,
          if_neg hps.2.2.2, ih ps' t hrest hlen, List.cons.injEq]

theorem globMatch_literal (p n : String) (h : literalPattern p = true) :
    (globMatch p n = true ↔ p = n) := by
  unfold globMatch
  have hmeta : ∀ c ∈ p.data, c ∉ globMetaChars := by
    intro c hc
    exact of_decide_eq_true ((List.all_eq_true.mp h) c hc)
  rw [globAux_literal (p.data.length + n.data.length + 1) p.data n.data hmeta
    (Nat.lt_succ_self _)]
  exact ⟨String.ext, fun he => congrArg String.data he⟩

theorem mem_matchedNames (patterns pkgNames : List String) (n : String) :
    n ∈ matchedNames patterns pkgNames ↔
      n ∈ pkgNames ∧ ∃ p ∈ patterns, globMatch p n = true := by
  unfold matchedNames
  rw [List.mem_filter, List.any_eq_true]

theorem mem_getDependents (packages : Packages) (name d : String)
    (h : d ∈ getDependents packages name) : d ∈ pkgNamesOf packages := by
  unfold getDependents at h
  split at h
  · obtain ⟨p, hp, rfl⟩ := List.mem_map.mp h
    exact List.mem_map.mpr ⟨p, (List.mem_filter.mp hp).1, rfl⟩
  · exact absurd h (List.not_mem_nil d)

theorem ignoreClosure_empty (rawIgnore : List String) (packages : Packages)
    (h : ignoreClosureMsgs rawIgnore packages = []) :
    ∀ p ∈ rawIgnore, ∀ d ∈ getDependents packages p, d ∈ rawIgnore := by
  intro p hp d hd
  have hall := List.flatMap_eq_nil_iff.mp h p hp
  rw [List.map_eq_nil_iff] at hall
  by_contra hc
  have hmem : d ∈ (getDependents packages p).filter
      (fun dependent => !(rawIgnore.contains dependent)) := by
    rw [List.mem_filter]
    refine ⟨hd, ?_⟩
    have : rawIgnore.contains d = false := by
      cases he : rawIgnore.contains d
      · rfl
      · exact absurd ((contains_iff_mem rawIgnore d).mp he) hc
    rw [this]
    rfl
  rw [hall] at hmem
  exact List.not_mem_nil d hmem

theorem ignoreClosure_mem (rawIgnore : List String) (packages : Packages) (p d : String)
    (hp : p ∈ rawIgnore) (hd : d ∈ getDependents packages p) (hnd : d ∉ rawIgnore) :
    closureMsg d p ∈ ignoreClosureMsgs rawIgnore packages := by
  unfold ignoreClosureMsgs
  rw [List.mem_flatMap]
  refine ⟨p, hp, List.mem_map.mpr ⟨d, ?_, rfl⟩⟩
  rw [List.mem_filter]
  refine ⟨hd, ?_⟩
  have : rawIgnore.contains d = false := by
    cases he : rawIgnore.contains d
    · rfl
    · exact absurd ((contains_iff_mem rawIgnore d).mp he) hnd
  rw [this]
  rfl

theorem ignoreCheck_strings (v : JSValue) (pkgNames : List String) (packages : Packages)
    (l msgs : List String) (hv : asStringList v = some l)
    (h : ignoreCheck v pkgNames packages = .ok msgs) :
    ∃ r, normalizePackageNames l pkgNames = .ok r ∧
      msgs = r.2.map ignoreUnmatchedMsg ++ ignoreClosureMsgs l packages := by
  cases v <;> try exact Option.noConfusion hv
  case arr xs =>
    have htruthy : JSValue.truthy (.arr xs) = true := rfl
    unfold ignoreCheck at h
    rw [htruthy] at h
    simp only [Bool.not_true, Bool.false_eq_true, if_false, hv] at h
    cases hn : normalizePackageNames l pkgNames with
    | error e =>
      simp only [hn] at h
      exact Except.noConfusion h
    | ok r =>
      simp only [hn] at h
      cases h
      exact ⟨r, rfl, rfl⟩

theorem resolveIgnoreField_strings (v : JSValue) (pkgNames : List String)
    (l iv : List String) (hv : asStringList v = some l)
    (h : resolveIgnoreField v pkgNames = .ok iv) :
    ∃ r, normalizePackageNames l pkgNames = .ok r ∧ iv = r.1 := by
  cases v <;> try exact Option.noConfusion hv
  case arr xs =>
    simp only [resolveIgnoreField, hv] at h
    cases hn : normalizePackageNames l pkgNames with
    | error e =>
      simp only [hn, Except.map] at h
      exact Except.noConfusion h
    | ok r =>
      simp only [hn, Except.map] at h
      cases h
      exact ⟨r, rfl, rfl⟩

/-- C1 counterexample: with the glob entry `pkg-a*`, validation succeeds
although the resolved ignore set `["pkg-a"]` is not closed under the
dependents relation — `pkg-b` depends on `pkg-a` and is not ignored.
The closure check looked up the raw entry `pkg-a*` in the dependents
graph and found nothing. -/
theorem glob_ignore_closure_hole :
    parse globIgnoreConfig twoPkgs = .ok { fallbackConfig with ignore := ["pkg-a"] } ∧
      "pkg-b" ∈ getDependents twoPkgs "pkg-a" ∧ "pkg-b" ∉ (["pkg-a"] : List String) :=
  ⟨rfl, by decide, by decide⟩

/-- C1 (amended): restricted to raw `ignore` lists whose entries are all
literal package names — containing none of the glob metacharacters of
`globMetaChars` (wildcards, question mark, class and brace delimiters,
extglob parentheses and pipe, negation mark, escape) — the claim holds:
on success the resolved ignore set is closed under direct dependents, and
a violating literal pair is rejected with the violation naming both the
dependent and the ignored package. -/
theorem ignore_closure_literal :
    (∀ json packages l c, asStringList (WrittenConfig.ignore json) = some l →
        (∀ p ∈ l, literalPattern p = true) →
        parse json packages = .ok c →
        ∀ P ∈ Config.ignore c, ∀ D ∈ getDependents packages P, D ∈ Config.ignore c) ∧
      (∀ json packages l msgs, asStringList (WrittenConfig.ignore json) = some l →
        ∀ P ∈ l, ∀ D ∈ getDependents packages P, D ∉ l →
        collectMessages json packages = .ok msgs →
        closureMsg D P ∈ msgs ∧ parse json packages = .error (.validation msgs)) := by
  constructor
  · intro json packages l c hv hlit h P hP D hD
    obtain ⟨hcol, hb⟩ := (parse_ok_iff json packages c).mp h
    obtain ⟨m5, m7, m8, h5, h7, h8, hm⟩ := collectMessages_ok_shape json packages [] hcol
    have hm' := hm.symm
    simp only [List.append_eq_nil] at hm'
    have h7nil : m7 = [] := hm'.1.2
    obtain ⟨r, hn, hmsgs⟩ := ignoreCheck_strings json.ignore (pkgNamesOf packages)
      packages l m7 hv h7
    rw [h7nil] at hmsgs
    have hclosure : ignoreClosureMsgs l packages = [] := by
      have := hmsgs.symm
      rw [List.append_eq_nil] at this
      exact this.2
    obtain ⟨lv, iv, h1, h2, rfl⟩ := buildConfig_ok_shape json packages c hb
    obtain ⟨r', hn', hiv⟩ := resolveIgnoreField_strings json.ignore (pkgNamesOf packages)
      l iv hv h2
    rw [hn] at hn'
    cases hn'
    have hig : Config.ignore (mkParsedConfig json lv iv) = iv := rfl
    rw [hig, hiv] at hP ⊢
    have hnr : r.1 = matchedNames l (pkgNamesOf packages) := by
      unfold normalizePackageNames at hn
      by_cases he : l.any (fun pat => pat == "")
      · rw [if_pos he] at hn
        exact Except.noConfusion hn
      · rw [if_neg he] at hn
        cases hn
        rfl
    rw [hnr] at hP ⊢
    obtain ⟨hPn, pat, hpat, hmatch⟩ := (mem_matchedNames _ _ P).mp hP
    have hPl : P ∈ l := by
      have := (globMatch_literal pat P (hlit pat hpat)).mp hmatch
      rw [← this]
      exact hpat
    have hDl : D ∈ l := ignoreClosure_empty l packages hclosure P hPl D hD
    rw [mem_matchedNames]
    exact ⟨mem_getDependents packages P D hD, D, hDl,
      (globMatch_literal D D (hlit D hDl)).mpr rfl⟩
  · intro json packages l msgs hv P hP D hD hnd hc
    obtain ⟨m5, m7, m8, h5, h7, h8, hm⟩ := collectMessages_ok_shape json packages msgs hc
    obtain ⟨r, hn, hmsgs⟩ := ignoreCheck_strings json.ignore (pkgNamesOf packages)
      packages l m7 hv h7
    have hmem7 : closureMsg D P ∈ m7 := by
      rw [hmsgs]
      exact List.mem_append_right _ (ignoreClosure_mem l packages P D hP hD hnd)
    have hmem : closureMsg D P ∈ msgs := by
      rw [hm]
      exact List.mem_append_left _ (List.mem_append_right _ hmem7)
    refine ⟨hmem, (parse_validation_iff json packages msgs).mpr ⟨hc, ?_⟩⟩
    intro hnil
    rw [hnil] at hmem
    exact List.not_mem_nil _ hmem

/-- Witness for `ignore_closure_literal`: part 1 at the literal config
ignoring both packages (validation succeeds and the set is closed), part
2 at the literal config ignoring only `pkg-a` (rejected naming `pkg-b`
and `pkg-a`). -/
theorem ignore_closure_literal_witness :
    "pkg-b" ∈ Config.ignore { fallbackConfig with ignore := ["pkg-a", "pkg-b"] } ∧
      closureMsg "pkg-b" "pkg-a" ∈ [closureMsg "pkg-b" "pkg-a"] ∧
      parse literalIgnoreConfig twoPkgs =
        .error (.validation [closureMsg "pkg-b" "pkg-a"]) := by
  refine ⟨?_, ?_⟩
  · exact ignore_closure_literal.1 bothIgnoreConfig twoPkgs ["pkg-a", "pkg-b"]
      { fallbackConfig with ignore := ["pkg-a", "pkg-b"] } rfl (by decide) rfl
      "pkg-a" (by decide) "pkg-b" (by decide)
  · exact ignore_closure_literal.2 literalIgnoreConfig twoPkgs ["pkg-a"]
      [closureMsg "pkg-b" "pkg-a"] rfl "pkg-a" (by decide) "pkg-b" (by decide)
      (by decide) rfl

/-! ## Claim C6: linked-group disjointness, bookkeeping lemmas -/

theorem normalize_ok_parts (g pkgNames : List String) (r : List String × List String)
    (h : normalizePackageNames g pkgNames = .ok r) :
    r.1 = matchedNames g pkgNames ∧ r.2 = unmatchedPatterns g pkgNames := by
  unfold normalizePackageNames at h
  by_cases he : g.any (fun pat => pat == "")
  · rw [if_pos he] at h
    exact Except.noConfusion h
  · rw [if_neg he] at h
    cases h
    exact ⟨rfl, rfl⟩

theorem addNames_dup_extends (ns : List String) : ∀ found dup,
    ∃ extra, (addNamesToSets ns found dup).2 = dup ++ extra := by
  induction ns with
  | nil => intro found dup; exact ⟨[], by simp [addNamesToSets]⟩
  | cons n rest ih =>
    intro found dup
    unfold addNamesToSets
    by_cases hc : found.contains n && !(dup.contains n)
    · rw [if_pos hc]
      obtain ⟨extra, hx⟩ := ih (if found.contains n then found else found ++ [n]) (dup ++ [n])
      exact ⟨[n] ++ extra, by rw [hx, List.append_assoc]⟩
    · rw [if_neg hc]
      exact ih _ dup

theorem addNames_dup_mem (ns : List String) : ∀ found dup n, n ∈ dup →
    n ∈ (addNamesToSets ns found dup).2 := by
  intro found dup n hn
  obtain ⟨extra, hx⟩ := addNames_dup_extends ns found dup
  rw [hx]
  exact List.mem_append_left _ hn

theorem addNames_found_mono (ns : List String) : ∀ found dup x, x ∈ found →
    x ∈ (addNamesToSets ns found dup).1 := by
  induction ns with
  | nil => intro found dup x hx; exact hx
  | cons n rest ih =>
    intro found dup x hx
    unfold addNamesToSets
    apply ih
    by_cases hc : found.contains n
    · rw [if_pos hc]; exact hx
    · rw [if_neg hc]; exact List.mem_append_left _ hx

theorem addNames_found_gains (ns : List String) : ∀ found dup n, n ∈ ns →
    n ∈ (addNamesToSets ns found dup).1 := by
  induction ns with
  | nil => intro found dup n hn; exact absurd hn (List.not_mem_nil n)
  | cons m rest ih =>
    intro found dup n hn
    unfold addNamesToSets
    rcases List.mem_cons.mp hn with rfl | hn'
    · apply addNames_found_mono
      by_cases hc : found.contains n
      · rw [if_pos hc]; exact (contains_iff_mem found n).mp hc
      · rw [if_neg hc]; exact List.mem_append_right _ (List.mem_singleton.mpr rfl)
    · exact ih _ _ n hn'

theorem addNames_dup_hit (ns : List String) : ∀ found dup n, n ∈ ns → n ∈ found →
    n ∈ (addNamesToSets ns found dup).2 := by
  induction ns with
  | nil => intro found dup n hn; exact absurd hn (List.not_mem_nil n)
  | cons m rest ih =>
    intro found dup n hn hf
    unfold addNamesToSets
    rcases List.mem_cons.mp hn with rfl | hn'
    · have hc : found.contains n = true := (contains_iff_mem found n).mpr hf
      apply addNames_dup_mem
      by_cases hd : dup.contains n
      · rw [hc]
        simp only [hd, Bool.not_true, Bool.and_false, Bool.false_eq_true, if_false]
        exact (contains_iff_mem dup n).mp hd
      · have : dup.contains n = false := by
          cases he : dup.contains n
          · rfl
          · exact absurd he hd
        rw [hc, this]
        simp only [Bool.not_false, Bool.and_true, if_true]
        exact List.mem_append_right _ (List.mem_singleton.mpr rfl)
    · apply ih
      · exact hn'
      · by_cases hc : found.contains m
        · rw [if_pos hc]; exact hf
        · rw [if_neg hc]; exact List.mem_append_left _ hf

theorem addNames_dup_nodup (ns : List String) : ∀ found dup, dup.Nodup →
    (addNamesToSets ns found dup).2.Nodup := by
  induction ns with
  | nil => intro found dup h; exact h
  | cons n rest ih =>
    intro found dup h
    unfold addNamesToSets
    by_cases hc : found.contains n && !(dup.contains n)
    · rw [if_pos hc]
      apply ih
      rw [List.nodup_append]
      refine ⟨h, List.nodup_singleton n, ?_⟩
      intro x hx hxn
      rw [List.mem_singleton] at hxn
      subst hxn
      have := (Bool.and_eq_true _ _).mp hc
      have hnd : dup.contains x = false := by
        cases he : dup.contains x
        · rfl
        · rw [he] at this
          exact absurd this.2 (by decide)
      exact absurd ((contains_iff_mem dup x).mpr hx) (by rw [hnd] at *; intro hh; simp_all)
    · rw [if_neg hc]
      exact ih _ dup h

theorem addNames_clean (ns : List String) : ∀ found,
    (addNamesToSets ns found []).2 = [] →
    (∀ n ∈ ns, n ∉ found) ∧ ns.Nodup ∧
      (addNamesToSets ns found []).1 = found ++ ns := by
  induction ns with
  | nil =>
    intro found _
    exact ⟨fun n hn => absurd hn (List.not_mem_nil n), List.nodup_nil, by simp [addNamesToSets]⟩
  | cons n rest ih =>
    intro found hres
    have hcf : found.contains n = false := by
      cases hc : found.contains n
      · rfl
      · exfalso
        unfold addNamesToSets at hres
        rw [hc] at hres
        simp only [List.contains, List.elem_nil, Bool.not_false, Bool.and_true, if_true,
          if_pos rfl] at hres
        obtain ⟨extra, hx⟩ := addNames_dup_extends rest found ([] ++ [n])
        rw [hres] at hx
        simp at hx
    have hnf : n ∉ found := fun hmem => by
      rw [(contains_iff_mem found n).mpr hmem] at hcf
      exact Bool.noConfusion hcf
    have hstep : addNamesToSets (n :: rest) found [] =
        addNamesToSets rest (found ++ [n]) [] := by
      show addNamesToSets rest (if found.contains n then found else found ++ [n])
          (if found.contains n && !(([] : List String).contains n) then [] ++ [n] else []) =
        addNamesToSets rest (found ++ [n]) []
      rw [hcf]
      rfl
    rw [hstep] at hres
    obtain ⟨hno, hnd, hfound⟩ := ih (found ++ [n]) hres
    refine ⟨?_, ?_, ?_⟩
    · intro m hm
      rcases List.mem_cons.mp hm with rfl | hm'
      · exact hnf
      · intro hmf
        exact hno m hm' (List.mem_append_left _ hmf)
    · rw [List.nodup_cons]
      refine ⟨fun hmem => hno n hmem (List.mem_append_right _ (List.mem_singleton.mpr rfl)), hnd⟩
    · rw [hstep, hfound, List.append_assoc]
      rfl

theorem linkedLoop_normalize_ok (pkgNames : List String) :
    ∀ (gs : List (List String)) found dup msgs res,
      linkedLoop pkgNames gs found dup msgs = .ok res →
      ∀ g ∈ gs, ∃ r, normalizePackageNames g pkgNames = .ok r := by
  intro gs
  induction gs with
  | nil => intro found dup msgs res _ g hg; exact absurd hg (List.not_mem_nil g)
  | cons g0 rest ih =>
    intro found dup msgs res h g hg
    cases hn : normalizePackageNames g0 pkgNames with
    | error e =>
      simp only [linkedLoop, hn] at h
      exact Except.noConfusion h
    | ok r =>
      simp only [linkedLoop, hn] at h
      rcases List.mem_cons.mp hg with rfl | hg'
      · exact ⟨r, hn⟩
      · exact ih _ _ _ res h g hg'

theorem linkedLoop_dup_mono (pkgNames : List String) :
    ∀ (gs : List (List String)) found dup msgs msgs' dup' n,
      linkedLoop pkgNames gs found dup msgs = .ok (msgs', dup') →
      n ∈ dup → n ∈ dup' := by
  intro gs
  induction gs with
  | nil =>
    intro found dup msgs msgs' dup' n h hn
    simp only [linkedLoop] at h
    cases h
    exact hn
  | cons g0 rest ih =>
    intro found dup msgs msgs' dup' n h hn
    cases hnorm : normalizePackageNames g0 pkgNames with
    | error e =>
      simp only [linkedLoop, hnorm] at h
      exact Except.noConfusion h
    | ok r =>
      simp only [linkedLoop, hnorm] at h
      exact ih _ _ _ msgs' dup' n h (addNames_dup_mem r.1 found dup n hn)

theorem linkedLoop_dup_nodup (pkgNames : List String) :
    ∀ (gs : List (List String)) found dup msgs msgs' dup',
      linkedLoop pkgNames gs found dup msgs = .ok (msgs', dup') →
      dup.Nodup → dup'.Nodup := by
  intro gs
  induction gs with
  | nil =>
    intro found dup msgs msgs' dup' h hd
    simp only [linkedLoop] at h
    cases h
    exact hd
  | cons g0 rest ih =>
    intro found dup msgs msgs' dup' h hd
    cases hnorm : normalizePackageNames g0 pkgNames with
    | error e =>
      simp only [linkedLoop, hnorm] at h
      exact Except.noConfusion h
    | ok r =>
      simp only [linkedLoop, hnorm] at h
      exact ih _ _ _ msgs' dup' h (addNames_dup_nodup r.1 found dup hd)

theorem linkedLoop_clean (pkgNames : List String) :
    ∀ (gs : List (List String)) found msgs msgs',
      linkedLoop pkgNames gs found [] msgs = .ok (msgs', []) →
      (gs.map (fun g => matchedNames g pkgNames)).flatten.Nodup ∧
        ∀ n ∈ (gs.map (fun g => matchedNames g pkgNames)).flatten, n ∉ found := by
  intro gs
  induction gs with
  | nil =>
    intro found msgs msgs' _
    simp
  | cons g0 rest ih =>
    intro found msgs msgs' h
    cases hnorm : normalizePackageNames g0 pkgNames with
    | error e =>
      simp only [linkedLoop, hnorm] at h
      exact Except.noConfusion h
    | ok r =>
      simp only [linkedLoop, hnorm] at h
      have hmid : (addNamesToSets r.1 found []).2 = [] := by
        rw [List.eq_nil_iff_forall_not_mem]
        intro x hx
        have := linkedLoop_dup_mono pkgNames rest _ _ _ msgs' [] x h hx
        exact List.not_mem_nil x this
      obtain ⟨hnof, hnd, hfound⟩ := addNames_clean r.1 found hmid
      rw [hmid, hfound] at h
      obtain ⟨hrestnd, hrestf⟩ := ih (found ++ r.1) _ msgs' h
      have hr1 : r.1 = matchedNames g0 pkgNames := (normalize_ok_parts g0 pkgNames r hnorm).1
      constructor
      · simp only [List.map_cons, List.flatten_cons]
        rw [List.nodup_append]
        refine ⟨hr1 ▸ hnd, hrestnd, ?_⟩
        intro x hx1 hx2
        exact hrestf x hx2 (List.mem_append_right _ (hr1 ▸ hx1))
      · intro n hn
        simp only [List.map_cons, List.flatten_cons, List.mem_append] at hn
        rcases hn with hn | hn
        · exact hnof n (hr1 ▸ hn)
        · intro hmem
          exact hrestf n hn (List.mem_append_left _ hmem)

theorem linkedLoop_dup_found (pkgNames : List String) :
    ∀ (gs : List (List String)) found dup msgs msgs' dup' n,
      n ∈ found → (∃ g ∈ gs, n ∈ matchedNames g pkgNames) →
      linkedLoop pkgNames gs found dup msgs = .ok (msgs', dup') →
      n ∈ dup' := by
  intro gs
  induction gs with
  | nil =>
    intro found dup msgs msgs' dup' n _ hex _
    obtain ⟨g, hg, -⟩ := hex
    exact absurd hg (List.not_mem_nil g)
  | cons g0 rest ih =>
    intro found dup msgs msgs' dup' n hf hex h
    cases hnorm : normalizePackageNames g0 pkgNames with
    | error e =>
      simp only [linkedLoop, hnorm] at h
      exact Except.noConfusion h
    | ok r =>
      simp only [linkedLoop, hnorm] at h
      obtain ⟨g, hg, hng⟩ := hex
      rcases List.mem_cons.mp hg with rfl | hg'
      · have hr1 : r.1 = matchedNames g pkgNames := (normalize_ok_parts g pkgNames r hnorm).1
        have : n ∈ (addNamesToSets r.1 found dup).2 :=
          addNames_dup_hit r.1 found dup n (hr1 ▸ hng) hf
        exact linkedLoop_dup_mono pkgNames rest _ _ _ msgs' dup' n h this
      · exact ih _ _ _ msgs' dup' n (addNames_found_mono r.1 found dup n hf) ⟨g, hg', hng⟩ h

theorem linkedLoop_dup_two (pkgNames : List String) :
    ∀ (gs : List (List String)) found dup msgs msgs' dup' n i j
      (hi : i < gs.length) (hj : j < gs.length), i < j →
      n ∈ matchedNames (gs.get ⟨i, hi⟩) pkgNames →
      n ∈ matchedNames (gs.get ⟨j, hj⟩) pkgNames →
      linkedLoop pkgNames gs found dup msgs = .ok (msgs', dup') →
      n ∈ dup' := by
  intro gs
  induction gs with
  | nil =>
    intro found dup msgs msgs' dup' n i j hi hj
    exact absurd hj (Nat.not_lt_zero j)
  | cons g0 rest ih =>
    intro found dup msgs msgs' dup' n i j hi hj hij hni hnj h
    cases hnorm : normalizePackageNames g0 pkgNames with
    | error e =>
      simp only [linkedLoop, hnorm] at h
      exact Except.noConfusion h
    | ok r =>
      simp only [linkedLoop, hnorm] at h
      cases i with
      | zero =>
        have hr1 : r.1 = matchedNames g0 pkgNames := (normalize_ok_parts g0 pkgNames r hnorm).1
        have hnf : n ∈ (addNamesToSets r.1 found dup).1 := by
          apply addNames_found_gains
          rw [hr1]
          exact hni
        cases j with
        | zero => exact absurd hij (Nat.lt_irrefl 0)
        | succ j' =>
          have hj' : j' < rest.length := Nat.lt_of_succ_lt_succ hj
          apply linkedLoop_dup_found pkgNames rest _ _ _ msgs' dup' n hnf ?_ h
          exact ⟨rest.get ⟨j', hj'⟩, List.get_mem rest j' hj', hnj⟩
      | succ i' =>
        cases j with
        | zero => exact absurd hij (by omega)
        | succ j' =>
          have hi' : i' < rest.length := Nat.lt_of_succ_lt_succ hi
          have hj' : j' < rest.length := Nat.lt_of_succ_lt_succ hj
          exact ih _ _ _ msgs' dup' n i' j' hi' hj' (by omega) hni hnj h

theorem linkedCheck_groups (v : JSValue) (pkgNames : List String)
    (gs : List (List String)) (m5 : List String) (hv : asLinkedShape v = some gs)
    (h : linkedCheck v pkgNames = .ok m5) :
    ∃ msgs0 dup, linkedLoop pkgNames gs [] [] [] = .ok (msgs0, dup) ∧
      m5 = msgs0 ++ dup.map dupLinkedMsg := by
  cases v <;> try exact Option.noConfusion hv
  case arr xs =>
    simp only [linkedCheck, hv] at h
    cases hl : linkedLoop pkgNames gs [] [] [] with
    | error e =>
      simp only [hl] at h
      exact Except.noConfusion h
    | ok md =>
      simp only [hl] at h
      cases h
      exact ⟨md.1, md.2, rfl, rfl⟩

theorem mapM_normalize_eq (pkgNames : List String) :
    ∀ (gs : List (List String)) (lv : List (List String)),
      (∀ g ∈ gs, ∃ r, normalizePackageNames g pkgNames = .ok r) →
      gs.mapM (fun g => (normalizePackageNames g pkgNames).map (fun r => r.1)) = .ok lv →
      lv = gs.map (fun g => matchedNames g pkgNames) := by
  intro gs
  induction gs with
  | nil =>
    intro lv _ h
    simp only [List.mapM_nil, pure, Except.pure] at h
    cases h
    rfl
  | cons g rest ih =>
    intro lv hok h
    obtain ⟨r, hr⟩ := hok g (List.mem_cons_self g rest)
    have hfg : (normalizePackageNames g pkgNames).map
        (fun r : List String × List String => r.1) = Except.ok r.1 := by
      rw [hr]
      rfl
    rw [List.mapM_cons] at h
    cases hm : rest.mapM (fun g => (normalizePackageNames g pkgNames).map (fun r => r.1)) with
    | error e =>
      rw [hm] at h
      simp only [bind, Except.bind, hfg, pure, Except.pure] at h
      exact Except.noConfusion h
    | ok lvs =>
      rw [hm] at h
      simp only [bind, Except.bind, hfg, pure, Except.pure] at h
      cases h
      have hrest := ih lvs (fun g' hg' => hok g' (List.mem_cons_of_mem g hg')) hm
      rw [List.map_cons, ← hrest, (normalize_ok_parts g pkgNames r hr).1]

theorem resolveLinkedField_groups (v : JSValue) (pkgNames : List String)
    (gs lv : List (List String)) (hv : asLinkedShape v = some gs)
    (hok : ∀ g ∈ gs, ∃ r, normalizePackageNames g pkgNames = .ok r)
    (h : resolveLinkedField v pkgNames = .ok lv) :
    lv = gs.map (fun g => matchedNames g pkgNames) := by
  cases v <;> try exact Option.noConfusion hv
  case arr xs =>
    simp only [resolveLinkedField, hv] at h
    exact mapM_normalize_eq pkgNames gs lv hok h

/-! ## Claim C6: message disequalities -/

theorem ne_of_data_take (k : Nat) (s t : String)
    (h : s.data.take k ≠ t.data.take k) : s ≠ t :=
  fun he => h (by rw [he])

theorem take5_append (l1 l2 : List Char) (h : 5 ≤ l1.length) :
    (l1 ++ l2).take 5 = l1.take 5 :=
  List.take_append_of_le_length h

theorem dupLinkedMsg_take5 (n : String) :
    (dupLinkedMsg n).data.take 5 = ['T', 'h', 'e', ' ', 'p'] := by
  unfold dupLinkedMsg
  rw [String.data_append, take5_append _ _ (by decide)]
  decide

theorem backtick_take5 (lit mid suffix : String) (hlen : 5 ≤ lit.data.length)
    (hlit : lit.data.take 5 = ['T', 'h', 'e', ' ', '`']) :
    ((lit ++ mid) ++ suffix).data.take 5 = ['T', 'h', 'e', ' ', '`'] := by
  rw [String.data_append, String.data_append]
  rw [take5_append _ _ (by rw [List.length_append]; omega)]
  rw [take5_append _ _ hlen]
  exact hlit

theorem backtick_msg_ne_dup (lit mid suffix n : String) (hlen : 5 ≤ lit.data.length)
    (hlit : lit.data.take 5 = ['T', 'h', 'e', ' ', '`']) :
    (lit ++ mid) ++ suffix ≠ dupLinkedMsg n := by
  apply ne_of_data_take 5
  rw [backtick_take5 lit mid suffix hlen hlit, dupLinkedMsg_take5]
  decide

theorem dupLinkedMsg_take13 (n : String) :
    (dupLinkedMsg n).data.take 13 = ("The package \"").data := by
  unfold dupLinkedMsg
  rw [String.data_append, List.take_append_of_le_length (by decide)]
  decide

theorem glob_msg_ne_dup (rest n : String) :
    "The package or glob expression \"" ++ rest ≠ dupLinkedMsg n := by
  apply ne_of_data_take 13
  rw [dupLinkedMsg_take13, String.data_append, List.take_append_of_le_length (by decide)]
  decide

set_option maxRecDepth 40000 in
theorem closureMsg_ne_dup (d p n : String) : closureMsg d p ≠ dupLinkedMsg n := by
  intro he
  have h2 := congrArg (fun z : String => z.data.reverse.take 2) he
  simp only [closureMsg, dupLinkedMsg, String.data_append, List.reverse_append,
    List.append_assoc] at h2
  rw [@List.take_append_of_le_length _ closureSuffix.data.reverse _ 2 (by decide),
    @List.take_append_of_le_length _ dupLinkedSuffix.data.reverse _ 2 (by decide)] at h2
  exact absurd h2 (by decide)

theorem dupLinkedMsg_injective : Function.Injective dupLinkedMsg := by
  intro a b h
  have hd := congrArg String.data h
  simp only [dupLinkedMsg, String.data_append] at hd
  have h2 := List.append_cancel_left hd
  have hlen : a.data.length = b.data.length := by
    have := congrArg List.length h2
    simp only [List.length_append] at this
    omega
  exact String.ext (List.append_inj h2 hlen).1

theorem changelogCheck_cases (v : JSValue) :
    changelogCheck v = [] ∨ changelogCheck v = [changelogShapeMsg v] := by
  unfold changelogCheck
  split <;> simp

theorem accessCheck_cases (v : JSValue) :
    accessCheck v = [] ∨ accessCheck v = [accessShapeMsg v] := by
  unfold accessCheck
  split <;> simp

theorem commitCheck_cases (v : JSValue) :
    commitCheck v = [] ∨ commitCheck v = [commitShapeMsg v] := by
  unfold commitCheck
  split <;> simp

theorem baseBranchCheck_cases (v : JSValue) :
    baseBranchCheck v = [] ∨ baseBranchCheck v = [baseBranchShapeMsg v] := by
  unfold baseBranchCheck
  split <;> simp

theorem updateInternalCheck_cases (v : JSValue) :
    updateInternalCheck v = [] ∨ updateInternalCheck v = [updateInternalShapeMsg v] := by
  unfold updateInternalCheck
  split <;> simp

theorem expArm_mem (f : JSValue) (msg : JSValue → String) :
    ∀ x ∈ expFlagCheck f msg, ∃ w, x = msg w := by
  cases f <;> intro x hx <;> unfold expFlagCheck at hx <;>
    first
      | exact absurd hx (List.not_mem_nil x)
      | exact ⟨_, List.mem_singleton.mp hx⟩

theorem experimentalCheck_mem (v : JSValue) (m8 : List String)
    (h : experimentalCheck v = .ok m8) :
    ∀ x ∈ m8, (∃ w, x = expOutOfRangeMsg w) ∨ (∃ w, x = expSnapshotsMsg w) := by
  unfold experimentalCheck at h
  cases v <;> try
    { have hm := (Except.ok.inj h).symm
      subst hm
      intro x hx
      rcases List.mem_append.mp hx with hx' | hx'
      · exact Or.inl (expArm_mem _ _ x hx')
      · exact Or.inr (expArm_mem _ _ x hx') }
  case undef =>
    have hm := (Except.ok.inj h).symm
    subst hm
    intro x hx
    exact absurd hx (List.not_mem_nil x)
  case null => exact Except.noConfusion h

theorem ignoreCheck_mem (v : JSValue) (pkgNames : List String) (packages : Packages)
    (m7 : List String) (h : ignoreCheck v pkgNames packages = .ok m7) :
    ∀ x ∈ m7, x = ignoreShapeMsg v ∨ (∃ pat, x = ignoreUnmatchedMsg pat) ∨
      (∃ dd pp, x = closureMsg dd pp) := by
  unfold ignoreCheck at h
  cases htr : v.truthy with
  | false =>
    rw [htr] at h
    simp only [Bool.not_false, if_true] at h
    cases h
    intro x hx
    exact absurd hx (List.not_mem_nil x)
  | true =>
    rw [htr] at h
    simp only [Bool.not_true, Bool.false_eq_true, if_false] at h
    cases hs : asStringList v with
    | none =>
      rw [hs] at h
      cases h
      intro x hx
      exact Or.inl (List.mem_singleton.mp hx)
    | some rawIgnore =>
      rw [hs] at h
      cases hn : normalizePackageNames rawIgnore pkgNames with
      | error e =>
        simp only [hn] at h
        exact Except.noConfusion h
      | ok r =>
        simp only [hn] at h
        cases h
        intro x hx
        rcases List.mem_append.mp hx with hx' | hx'
        · obtain ⟨pat, -, rfl⟩ := List.mem_map.mp hx'
          exact Or.inr (Or.inl ⟨pat, rfl⟩)
        · obtain ⟨p, -, hx''⟩ := List.mem_flatMap.mp hx'
          obtain ⟨dd, -, rfl⟩ := List.mem_map.mp hx''
          exact Or.inr (Or.inr ⟨dd, p, rfl⟩)

theorem linkedLoop_msgs_mem (pkgNames : List String) :
    ∀ (gs : List (List String)) found dup msgs msgs' dup',
      linkedLoop pkgNames gs found dup msgs = .ok (msgs', dup') →
      ∀ x ∈ msgs', x ∈ msgs ∨ ∃ pat, x = linkedUnmatchedMsg pat := by
  intro gs
  induction gs with
  | nil =>
    intro found dup msgs msgs' dup' h x hx
    simp only [linkedLoop] at h
    cases h
    exact Or.inl hx
  | cons g0 rest ih =>
    intro found dup msgs msgs' dup' h x hx
    cases hnorm : normalizePackageNames g0 pkgNames with
    | error e =>
      simp only [linkedLoop, hnorm] at h
      exact Except.noConfusion h
    | ok r =>
      simp only [linkedLoop, hnorm] at h
      rcases ih _ _ _ msgs' dup' h x hx with hx' | hx'
      · rcases List.mem_append.mp hx' with hx'' | hx''
        · exact Or.inl hx''
        · obtain ⟨pat, -, rfl⟩ := List.mem_map.mp hx''
          exact Or.inr ⟨pat, rfl⟩
      · exact Or.inr hx'

theorem count_dup_zero (seg : List String) (n : String)
    (hne : ∀ x ∈ seg, x ≠ dupLinkedMsg n) :
    seg.count (dupLinkedMsg n) = 0 :=
  List.count_eq_zero.mpr (fun hmem => hne _ hmem rfl)

theorem linkedCheck_none (v : JSValue) (pkgNames : List String) (hne : v ≠ .undef)
    (hv : asLinkedShape v = none) :
    linkedCheck v pkgNames = .ok [linkedShapeMsg v] := by
  cases v
  case undef => exact absurd rfl hne
  all_goals simp only [linkedCheck, hv]

/-- C6: in every successfully validated config the resolved linked
groups are pairwise disjoint; and a name resolved into two distinct
input groups yields exactly one duplicate-package violation message in
the whole collected list (not one per pair of groups). -/
theorem linked_disjointness :
    (∀ json packages c, parse json packages = .ok c →
        ∀ i j (hi : i < c.linked.length) (hj : j < c.linked.length), i ≠ j →
          ∀ n, n ∈ c.linked.get ⟨i, hi⟩ → n ∉ c.linked.get ⟨j, hj⟩) ∧
      (∀ json packages gs msgs n i j (hi : i < gs.length) (hj : j < gs.length),
        i < j →
        asLinkedShape (WrittenConfig.linked json) = some gs →
        n ∈ matchedNames (gs.get ⟨i, hi⟩) (pkgNamesOf packages) →
        n ∈ matchedNames (gs.get ⟨j, hj⟩) (pkgNamesOf packages) →
        collectMessages json packages = .ok msgs →
        msgs.count (dupLinkedMsg n) = 1) := by
  constructor
  · intro json packages c h i j hi hj hij n hni hnj
    obtain ⟨hcol, hb⟩ := (parse_ok_iff json packages c).mp h
    obtain ⟨m5, m7, m8, h5, h7, h8, hm⟩ := collectMessages_ok_shape json packages [] hcol
    have hm' := hm.symm
    simp only [List.append_eq_nil] at hm'
    have h5nil : m5 = [] := hm'.1.1.1.2
    obtain ⟨lv, iv, h1, h2, hc⟩ := buildConfig_ok_shape json packages c hb
    subst hc
    by_cases hundef : json.linked = JSValue.undef
    · rw [hundef] at h1
      simp only [resolveLinkedField] at h1
      cases h1
      exact absurd hi (by simp [mkParsedConfig])
    · cases hshape : asLinkedShape json.linked with
      | none =>
        rw [linkedCheck_none json.linked (pkgNamesOf packages) hundef hshape, h5nil] at h5
        exact absurd (Except.ok.inj h5) (List.cons_ne_nil _ _)
      | some gs =>
        obtain ⟨msgs0, dup, hloop, hm5⟩ :=
          linkedCheck_groups json.linked (pkgNamesOf packages) gs m5 hshape h5
        rw [h5nil] at hm5
        have hm5' := hm5.symm
        rw [List.append_eq_nil] at hm5'
        have hdupnil : dup = [] := List.map_eq_nil_iff.mp hm5'.2
        rw [hdupnil] at hloop
        have hclean := linkedLoop_clean (pkgNamesOf packages) gs [] [] msgs0 hloop
        have hok := linkedLoop_normalize_ok (pkgNamesOf packages) gs [] [] [] (msgs0, []) hloop
        have hlv := resolveLinkedField_groups json.linked (pkgNamesOf packages) gs lv hshape hok h1
        subst hlv
        have hnodup := hclean.1
        rw [List.nodup_flatten] at hnodup
        have hpair := hnodup.2
        rw [List.pairwise_iff_getElem] at hpair
        rcases Nat.lt_or_ge i j with hlt | hge
        · exact hpair i j hi hj hlt hni hnj
        · have hgt : j < i := by omega
          exact hpair j i hj hi hgt hnj hni
  · intro json packages gs msgs n i j hi hj hij hshape hni hnj hc
    obtain ⟨m5, m7, m8, h5, h7, h8, hm⟩ := collectMessages_ok_shape json packages msgs hc
    obtain ⟨msgs0, dup, hloop, hm5⟩ :=
      linkedCheck_groups json.linked (pkgNamesOf packages) gs m5 hshape h5
    have hdupmem : n ∈ dup :=
      linkedLoop_dup_two (pkgNamesOf packages) gs [] [] [] msgs0 dup n i j hi hj hij
        hni hnj hloop
    have hdupnd : dup.Nodup :=
      linkedLoop_dup_nodup (pkgNamesOf packages) gs [] [] [] msgs0 dup hloop List.nodup_nil
    have c1 : (changelogCheck json.changelog).count (dupLinkedMsg n) = 0 := by
      rcases changelogCheck_cases json.changelog with hcc | hcc <;> rw [hcc]
      · rfl
      · apply count_dup_zero
        intro x hx
        rw [List.mem_singleton] at hx
        subst hx
        unfold changelogShapeMsg
        exact backtick_msg_ne_dup _ _ _ n (by decide) (by decide)
    have c2 : (accessCheck (normalizedAccessOf json.access)).count (dupLinkedMsg n) = 0 := by
      rcases accessCheck_cases (normalizedAccessOf json.access) with hcc | hcc <;> rw [hcc]
      · rfl
      · apply count_dup_zero
        intro x hx
        rw [List.mem_singleton] at hx
        subst hx
        unfold accessShapeMsg
        exact backtick_msg_ne_dup _ _ _ n (by decide) (by decide)
    have c3 : (commitCheck json.commit).count (dupLinkedMsg n) = 0 := by
      rcases commitCheck_cases json.commit with hcc | hcc <;> rw [hcc]
      · rfl
      · apply count_dup_zero
        intro x hx
        rw [List.mem_singleton] at hx
        subst hx
        unfold commitShapeMsg
        exact backtick_msg_ne_dup _ _ _ n (by decide) (by decide)
    have c4 : (baseBranchCheck json.baseBranch).count (dupLinkedMsg n) = 0 := by
      rcases baseBranchCheck_cases json.baseBranch with hcc | hcc <;> rw [hcc]
      · rfl
      · apply count_dup_zero
        intro x hx
        rw [List.mem_singleton] at hx
        subst hx
        unfold baseBranchShapeMsg
        exact backtick_msg_ne_dup _ _ _ n (by decide) (by decide)
    have c6 : (updateInternalCheck json.updateInternalDependencies).count
        (dupLinkedMsg n) = 0 := by
      rcases updateInternalCheck_cases json.updateInternalDependencies with hcc | hcc <;>
        rw [hcc]
      · rfl
      · apply count_dup_zero
        intro x hx
        rw [List.mem_singleton] at hx
        subst hx
        unfold updateInternalShapeMsg
        exact backtick_msg_ne_dup _ _ _ n (by decide) (by decide)
    have c5a : msgs0.count (dupLinkedMsg n) = 0 := by
      apply count_dup_zero
      intro x hx
      rcases linkedLoop_msgs_mem (pkgNamesOf packages) gs [] [] [] msgs0 dup hloop x hx with
        hx' | ⟨pat, rfl⟩
      · exact absurd hx' (List.not_mem_nil x)
      · unfold linkedUnmatchedMsg
        exact glob_msg_ne_dup _ n
    have cdup : (dup.map dupLinkedMsg).count (dupLinkedMsg n) = 1 := by
      rw [List.count_map_of_injective dup dupLinkedMsg dupLinkedMsg_injective n]
      exact List.count_eq_one_of_mem hdupnd hdupmem
    have c7 : m7.count (dupLinkedMsg n) = 0 := by
      apply count_dup_zero
      intro x hx
      rcases ignoreCheck_mem json.ignore (pkgNamesOf packages) packages m7 h7 x hx with
        rfl | ⟨pat, rfl⟩ | ⟨dd, pp, rfl⟩
      · unfold ignoreShapeMsg
        exact backtick_msg_ne_dup _ _ _ n (by decide) (by decide)
      · unfold ignoreUnmatchedMsg
        exact glob_msg_ne_dup _ n
      · exact closureMsg_ne_dup dd pp n
    have c8 : m8.count (dupLinkedMsg n) = 0 := by
      apply count_dup_zero
      intro x hx
      rcases experimentalCheck_mem json.experimentalOptions m8 h8 x hx with
        ⟨w, rfl⟩ | ⟨w, rfl⟩
      · unfold expOutOfRangeMsg
        exact backtick_msg_ne_dup _ _ _ n (by decide) (by decide)
      · unfold expSnapshotsMsg
        exact backtick_msg_ne_dup _ _ _ n (by decide) (by decide)
    rw [hm, hm5]
    simp only [List.count_append]
    rw [c1, c2, c3, c4, c6, c5a, cdup, c7, c8]

/-- Witness for `linked_disjointness`: two disjoint singleton groups
after a successful parse, and the overlapping groups of spec example 6
producing exactly one duplicate message for `pkg-2`. -/
theorem linked_disjointness_witness :
    "pkg-1" ∉ List.get (Config.linked
        { fallbackConfig with linked := [["pkg-1"], ["pkg-2"]] }) ⟨1, by decide⟩ ∧
      List.count (dupLinkedMsg "pkg-2") [dupLinkedMsg "pkg-2"] = 1 :=
  ⟨linked_disjointness.1 twoGroupsConfig threePkgs
      { fallbackConfig with linked := [["pkg-1"], ["pkg-2"]] } rfl 0 1 (by decide)
      (by decide) (by decide) "pkg-1" (by decide),
    linked_disjointness.2 dupLinkedConfig threePkgs
      [["pkg-1", "pkg-2"], ["pkg-2", "pkg-3"]] [dupLinkedMsg "pkg-2"] "pkg-2" 0 1
      (by decide) (by decide) (by decide) rfl (by decide) (by decide) rfl⟩
